import Mathlib

/-!
Verification of the event ingestion and projection pipeline of the
hypertrophy workout tracker backend (`src/backend/app`).

The Python services are shallowly embedded as pure functions over an explicit
relational state (`DB`): `SyncService.sync_events`, the
`WorkoutProjectionBuilder` (incremental update and full rebuild),
`MetricsService` (weekly aggregation) and `UserMergeService.merge_user_data`.
Each table is a list of rows in insertion order; SQLAlchemy's
`query(...).first()` followed by mutating the returned object becomes
`updateFirst`, and a commit/rollback boundary of a transaction that cannot
fail in a sequential, single-writer run is elided.
-/

namespace Hypertrophy

/-- An instant with timezone, kept at (calendar day, minute of day)
granularity: `day` is the proleptic Gregorian ordinal of the date part
(ordinal 1 = Monday, 0001-01-01) and `minute` the time of day. The modelled
code consumes only the date part, equality and ordering of instants, all of
which this representation preserves. -/
structure DateTime where
  day : Int
  minute : Int
deriving DecidableEq, Repr

/-- Python `datetime.date()`: the calendar-date part of an instant, as its
proleptic Gregorian ordinal. -/
def DateTime.date (t : DateTime) : Int := t.day

/-- Python `date.weekday()`: 0 = Monday, ..., 6 = Sunday. Ordinal 1 is a
Monday, so the weekday of ordinal `d` is `(d + 6) mod 7` (Python's `%` on a
positive modulus agrees with `Int.emod`). -/
def weekdayOf (d : Int) : Int := (d + 6) % 7

/-- `get_week_start` (metrics_service.py lines 16-21): the Monday of the week
containing `dt`, via `dt.date() - timedelta(days=dt.weekday())`. -/
def get_week_start (dt : DateTime) : Int := dt.date - weekdayOf dt.date

/-- Ordering of instants (`DateTime` comparison / SQL `ORDER BY` on a
timestamp column): lexicographic on (day, minute). -/
def dtLe (a b : DateTime) : Bool :=
  decide (a.day < b.day) || (a.day == b.day && decide (a.minute ≤ b.minute))

/-- A JSON scalar as it can appear in an event payload. `uuid` stands for a
UUID string and `time` for an ISO-8601 timestamp string; pydantic parses both
into `UUID` / `datetime` values, which the model holds directly. -/
inductive JVal where
  | uuid (v : Nat)
  | time (t : DateTime)
  | int (n : Int)
  | num (q : Rat)
  | str (s : String)
deriving DecidableEq, Repr

/-- A JSON object (an event's raw `payload` dict). -/
abbrev JObj := List (String × JVal)

/-- The four validated payload shapes of domain/events.py: the tagged sum the
payload schemas `WorkoutStartedPayload` .. `SetCompletedPayload` describe. -/
inductive Payload where
  | workoutStarted (workout_id : Nat) (started_at : DateTime)
  | workoutEnded (workout_id : Nat) (ended_at : DateTime)
  | exerciseAdded (workout_id : Nat) (exercise_id : Nat) (exercise_name : String)
  | setCompleted (workout_id : Nat) (exercise_id : Nat) (set_id : Nat)
      (reps : Int) (weight : Rat) (completed_at : DateTime)
deriving DecidableEq, Repr

/-- Read a required UUID field of a payload (pydantic `UUID` field). -/
def getUuid (payload : JObj) (field : String) : Except String Nat :=
  match payload.lookup field with
  | some (.uuid v) => .ok v
  | _ => .error (field ++ ": valid UUID required")

/-- Read a required datetime field of a payload (pydantic `datetime` field). -/
def getTime (payload : JObj) (field : String) : Except String DateTime :=
  match payload.lookup field with
  | some (.time t) => .ok t
  | _ => .error (field ++ ": valid datetime required")

/-- Read a required int field of a payload (pydantic `int` field). -/
def getInt (payload : JObj) (field : String) : Except String Int :=
  match payload.lookup field with
  | some (.int n) => .ok n
  | _ => .error (field ++ ": valid integer required")

/-- Read a required float field of a payload (pydantic `float` field). -/
def getNum (payload : JObj) (field : String) : Except String Rat :=
  match payload.lookup field with
  | some (.num q) => .ok q
  | _ => .error (field ++ ": valid number required")

/-- Read a required string field of a payload (pydantic `str` field). -/
def getStr (payload : JObj) (field : String) : Except String String :=
  match payload.lookup field with
  | some (.str s) => .ok s
  | _ => .error (field ++ ": valid string required")

/-- `validate_event_payload` (domain/events.py lines 76-99): maps the
event_type string to its pydantic schema and validates the payload against
it, checking required fields, their types, and the numeric constraints
`reps > 0` and `weight > 0`; an unknown event_type or a failed field is a
raised `ValueError` / pydantic `ValidationError` (`Except.error`). -/
def validate_event_payload (event_type : String) (payload : JObj) :
    Except String Payload :=
  if event_type = "WorkoutStarted" then do
    let wid ← getUuid payload "workout_id"
    let t ← getTime payload "started_at"
    return .workoutStarted wid t
  else if event_type = "WorkoutEnded" then do
    let wid ← getUuid payload "workout_id"
    let t ← getTime payload "ended_at"
    return .workoutEnded wid t
  else if event_type = "ExerciseAdded" then do
    let wid ← getUuid payload "workout_id"
    let eid ← getUuid payload "exercise_id"
    let name ← getStr payload "exercise_name"
    return .exerciseAdded wid eid name
  else if event_type = "SetCompleted" then do
    let wid ← getUuid payload "workout_id"
    let eid ← getUuid payload "exercise_id"
    let sid ← getUuid payload "set_id"
    let reps ← getInt payload "reps"
    let weight ← getNum payload "weight"
    let t ← getTime payload "completed_at"
    if reps > 0 then
      if weight > 0 then return .setCompleted wid eid sid reps weight t
      else .error "weight: must be greater than 0"
    else .error "reps: must be greater than 0"
  else .error ("Unknown event type: " ++ event_type)

/-- One element of the `events` list a client posts to `sync_events`: raw,
unvalidated payload. -/
structure InEvent where
  event_id : Nat
  event_type : String
  payload : JObj
  sequence_number : Int
deriving DecidableEq, Repr

/-- A stored row of the `events` table (models/events.py). The payload is
kept in its validated, typed form: every row is inserted by `sync_events`
only after `validate_event_payload` succeeded, so the stored JSON conforms to
the schema of its `event_type`; the `event_type` column is the tag of
`payload`, and the projection code's re-parsing of the stored JSON recovers
exactly the fields recorded here. `correlation_id` and `created_at` are never
consumed by the modelled services and are omitted. -/
structure Event where
  event_id : Nat
  payload : Payload
  user_id : Nat
  device_id : Nat
  sequence_number : Int
deriving DecidableEq, Repr

/-- A row of `workouts_projection` (models/projections.py). `status` is one
of the strings written by the services: "in_progress" or "completed". -/
structure WorkoutProjection where
  workout_id : Nat
  user_id : Nat
  started_at : DateTime
  ended_at : Option DateTime
  status : String
deriving DecidableEq, Repr

/-- A row of `sets_projection` (models/projections.py); `reps` and `weight`
are nullable columns. -/
structure SetProjection where
  set_id : Nat
  workout_id : Nat
  exercise_id : Nat
  reps : Option Int
  weight : Option Rat
  completed_at : DateTime
deriving DecidableEq, Repr

/-- A row of `weekly_metrics` (models/projections.py); `week_start` is a
date (ordinal). The server-generated surrogate `id` is never consumed and is
omitted. -/
structure WeeklyMetrics where
  user_id : Nat
  week_start : Int
  total_workouts : Nat
  total_volume : Rat
  exercises_count : Nat
deriving DecidableEq, Repr

/-- A row of `users` (models/user.py), restricted to the columns the merge
service consumes. -/
structure User where
  user_id : Nat
  is_anonymous : Bool
deriving DecidableEq, Repr

/-- A row of `weekly_reports` (models/projections.py), restricted to the
columns the merge service consumes. -/
structure WeeklyReport where
  report_id : Nat
  user_id : Nat
  week_start : Int
  report_text : String
deriving DecidableEq, Repr

/-- The relational database: one list per table, rows in insertion order. -/
structure DB where
  users : List User
  events : List Event
  workouts : List WorkoutProjection
  sets : List SetProjection
  metrics : List WeeklyMetrics
  reports : List WeeklyReport
deriving DecidableEq, Repr

/-- SQLAlchemy `query(...).filter(p).first()` followed by mutating the
returned row object: rewrite the first row satisfying `p`, leaving every
other row and the row order unchanged. -/
def updateFirst (p : α → Bool) (f : α → α) : List α → List α
  | [] => []
  | x :: xs => if p x then f x :: xs else x :: updateFirst p f xs

/-- Python `set.add` / dict-key insertion: record an element once, keeping
first-insertion order. Only membership and cardinality are consumed where
the source uses a `set`; where it uses dict keys the order is consumed too
and matches this definition. -/
def insertUniq [DecidableEq α] (xs : List α) (x : α) : List α :=
  if x ∈ xs then xs else xs ++ [x]

/-- The distinct values of a list in order of first appearance: Python
`set(l)` / dict grouping keys / SQL `distinct(...)`. -/
def distinctList [DecidableEq α] (l : List α) : List α :=
  l.foldl insertUniq []

/-- Insert into a list sorted by `le` (auxiliary to `sortByLe`). -/
def insertByLe (le : α → α → Bool) (x : α) : List α → List α
  | [] => [x]
  | y :: ys => if le x y then x :: y :: ys else y :: insertByLe le x ys

/-- Deterministic (insertion) sort by `le`: Python `sorted` / SQL
`ORDER BY`. -/
def sortByLe (le : α → α → Bool) : List α → List α
  | [] => []
  | x :: xs => insertByLe le x (sortByLe le xs)

/-- Ordering on `Int` used to model `sorted()` on sequence numbers. -/
def intLe (a b : Int) : Bool := decide (a ≤ b)

/-- `ORDER BY device_id, sequence_number` on event rows. -/
def eventLe (a b : Event) : Bool :=
  decide (a.device_id < b.device_id) ||
    (a.device_id == b.device_id && decide (a.sequence_number ≤ b.sequence_number))

/-! ### MetricsService (metrics_service.py) -/

/-- Key match of a `weekly_metrics` row against a (user_id, week_start)
pair — the filter of the find-or-create queries. -/
def metricsKeyMatch (user_id : Nat) (week_start : Int) (m : WeeklyMetrics) : Bool :=
  m.user_id == user_id && m.week_start == week_start

/-- Find-or-create of the (user_id, week_start) row of `weekly_metrics`
(metrics_service.py lines 84-109 and 157-181): if a row matches, its three
aggregate columns are overwritten on the row `.first()` returned; otherwise
a new row is appended. -/
def upsertMetrics (ms : List WeeklyMetrics) (user_id : Nat) (week_start : Int)
    (total_workouts : Nat) (total_volume : Rat) (exercises_count : Nat) :
    List WeeklyMetrics :=
  if ms.any (metricsKeyMatch user_id week_start) then
    updateFirst (metricsKeyMatch user_id week_start)
      (fun m => { m with total_workouts := total_workouts,
                         total_volume := total_volume,
                         exercises_count := exercises_count }) ms
  else ms ++ [⟨user_id, week_start, total_workouts, total_volume, exercises_count⟩]

/-- Volume contribution of one set row: `(s.reps or 0) * (s.weight or 0)`
with null treated as 0. -/
def setVolume (s : SetProjection) : Rat :=
  ((s.reps.getD 0 : Int) : Rat) * s.weight.getD 0

/-- The workout query of `calculate_weekly_metrics` (metrics_service.py
lines 43-57): the user's completed workouts whose `date(started_at)` lies in
`[week_start, week_end]` with `week_end = week_start + timedelta(days=6)`. -/
def weekCompletedWorkouts (db : DB) (user_id : Nat) (week_start : Int) :
    List WorkoutProjection :=
  db.workouts.filter (fun w =>
    w.user_id == user_id && w.status == "completed" &&
    decide (week_start ≤ w.started_at.date) &&
    decide (w.started_at.date ≤ week_start + 6))

/-- `MetricsService.calculate_weekly_metrics` (metrics_service.py lines
30-112): select the user's completed workouts of the week, batch-fetch all
their sets in one query, accumulate `total_volume` and the set of distinct
exercise ids in a single loop over those sets, and upsert the
(user_id, week_start) row. -/
def calculate_weekly_metrics (db : DB) (user_id : Nat) (week_start : Int) : DB :=
  let workouts := weekCompletedWorkouts db user_id week_start
  let workout_ids := workouts.map (·.workout_id)
  let all_sets :=
    if workout_ids.isEmpty then []
    else db.sets.filter (fun s => s.workout_id ∈ workout_ids)
  let total_volume := all_sets.foldl (fun acc s => acc + setVolume s) 0
  let unique_exercises := all_sets.foldl (fun acc s => insertUniq acc s.exercise_id) []
  { db with metrics :=
      (upsertMetrics db.metrics user_id week_start workouts.length total_volume
        unique_exercises.length) }

/-- Ordering used by `order_by(WorkoutProjection.started_at)`. -/
def workoutLe (a b : WorkoutProjection) : Bool := dtLe a.started_at b.started_at

/-- The completed-workout query of `rebuild_weekly_metrics`
(metrics_service.py lines 120-131): the user's completed workouts ordered by
`started_at`. -/
def userCompletedWorkouts (db : DB) (user_id : Nat) : List WorkoutProjection :=
  sortByLe workoutLe
    (db.workouts.filter (fun w => w.user_id == user_id && w.status == "completed"))

/-- The weekly buckets of `rebuild_weekly_metrics` (lines 133-139): the dict
grouping keys `get_week_start(started_at)`, in first-appearance order. -/
def userWeeks (db : DB) (user_id : Nat) : List Int :=
  distinctList ((userCompletedWorkouts db user_id).map
    (fun w => get_week_start w.started_at))

/-- The three aggregates of one (user, week) bucket of
`rebuild_weekly_metrics` (lines 143-155): workout count, Σ reps·weight over
the bucket's sets (batch-fetched), and distinct exercise cardinality. -/
def weekMetricsValues (db : DB) (user_id : Nat) (week_start : Int) :
    Nat × Rat × Nat :=
  let week_workouts := (userCompletedWorkouts db user_id).filter (fun w =>
    get_week_start w.started_at == week_start)
  let workout_ids := week_workouts.map (·.workout_id)
  let sets := db.sets.filter (fun s => s.workout_id ∈ workout_ids)
  (week_workouts.length, (sets.map setVolume).sum,
   (distinctList (sets.map (·.exercise_id))).length)

/-- The weekly-metrics row value `rebuild_weekly_metrics` writes for one
(user, week) bucket. -/
def weekMetricsRow (db : DB) (user_id : Nat) (week_start : Int) :
    WeeklyMetrics :=
  ⟨user_id, week_start, (weekMetricsValues db user_id week_start).1,
   (weekMetricsValues db user_id week_start).2.1,
   (weekMetricsValues db user_id week_start).2.2⟩

/-- The metrics-table fold of `rebuild_weekly_metrics` (lines 141-183):
upsert each week bucket's aggregates in bucket order. -/
def rwmFold (db : DB) (user_id : Nat) (ms : List WeeklyMetrics) :
    List WeeklyMetrics :=
  (userWeeks db user_id).foldl (fun ms week_start =>
    upsertMetrics ms user_id week_start
      (weekMetricsValues db user_id week_start).1
      (weekMetricsValues db user_id week_start).2.1
      (weekMetricsValues db user_id week_start).2.2) ms

/-- `MetricsService.rebuild_weekly_metrics` (metrics_service.py lines
114-183): take the user's completed workouts ordered by `started_at`, group
them into week buckets keyed by `get_week_start(started_at)`, and for each
bucket batch-fetch its sets, compute the three aggregates and upsert the
(user_id, week_start) row. -/
def rebuild_weekly_metrics (db : DB) (user_id : Nat) : DB :=
  { db with metrics := rwmFold db user_id db.metrics }

/-! ### WorkoutProjectionBuilder (projection_service.py) -/

/-- Row filter `WorkoutProjection.workout_id == workout_id`. -/
def widMatch (workout_id : Nat) (w : WorkoutProjection) : Bool :=
  w.workout_id == workout_id

/-- Row filter `SetProjection.set_id == set_id`. -/
def sidMatch (set_id : Nat) (s : SetProjection) : Bool := s.set_id == set_id

/-- One workout-phase step of `update_projections` (projection_service.py
lines 173-255): the upsert performed for a WorkoutStarted / WorkoutEnded
event. The code's transaction-local `workouts_in_transaction` cache exists
only to make rows staged in this transaction visible before flush; in the
model staged rows are already part of the `workouts` table, and the
cache-hit branch and the query-hit branch, whose bodies are identical in the
source, collapse into one `updateFirst`. -/
def applyWorkoutEvent (workouts : List WorkoutProjection) (e : Event) :
    List WorkoutProjection :=
  match e.payload with
  | .workoutStarted wid started_at =>
    if workouts.any (widMatch wid) then
      -- update started_at but preserve completed status if already completed
      updateFirst (widMatch wid) (fun w =>
        if w.status == "completed" then { w with started_at := started_at }
        else { w with started_at := started_at, status := "in_progress",
                      ended_at := none }) workouts
    else
      workouts ++ [⟨wid, e.user_id, started_at, none, "in_progress"⟩]
  | .workoutEnded wid ended_at =>
    if workouts.any (widMatch wid) then
      updateFirst (widMatch wid) (fun w =>
        { w with ended_at := some ended_at, status := "completed" }) workouts
    else
      -- WORKOUT_ENDED for unknown workout_id: synthesize a completed workout
      -- with started_at := ended_at as fallback, and log a warning
      workouts ++ [⟨wid, e.user_id, ended_at, some ended_at, "completed"⟩]
  | _ => workouts

/-- One set-phase step of `update_projections` (projection_service.py lines
265-318): skip (with a warning) when the referenced workout exists neither
in the transaction cache nor in the database, otherwise upsert by set_id. -/
def applySetEvent (workouts : List WorkoutProjection)
    (sets : List SetProjection) (e : Event) : List SetProjection :=
  match e.payload with
  | .setCompleted wid eid sid reps weight completed_at =>
    if workouts.any (widMatch wid) then
      if sets.any (sidMatch sid) then
        updateFirst (sidMatch sid) (fun s =>
          { s with workout_id := wid, exercise_id := eid, reps := some reps,
                   weight := some weight, completed_at := completed_at }) sets
      else
        sets ++ [⟨sid, wid, eid, some reps, some weight, completed_at⟩]
    else sets
  | _ => sets

/-- Event-type test used to put an event into `workout_events`. -/
def isWorkoutEvent (e : Event) : Bool :=
  match e.payload with
  | .workoutStarted .. => true
  | .workoutEnded .. => true
  | _ => false

/-- Event-type test used to put an event into `set_events`. -/
def isSetEvent (e : Event) : Bool :=
  match e.payload with
  | .setCompleted .. => true
  | _ => false

/-- `WorkoutProjectionBuilder.update_projections` (projection_service.py
lines 146-329): split the ordered new events into workout events and set
events, apply all workout upserts, flush, apply all set upserts against the
flushed workout table, commit, then rebuild this user's weekly metrics. -/
def update_projections (db : DB) (new_events : List Event) (user_id : Nat) : DB :=
  let workout_events := new_events.filter isWorkoutEvent
  let set_events := new_events.filter isSetEvent
  let workouts := workout_events.foldl applyWorkoutEvent db.workouts
  let sets := set_events.foldl (applySetEvent workouts) db.sets
  rebuild_weekly_metrics { db with workouts := workouts, sets := sets } user_id

/-- One step of the workout pass of `_replay_events` (projection_service.py
lines 54-86) over the in-memory `workouts` dict keyed by workout_id:
WorkoutStarted overwrites the whole entry (keeping its dict position),
WorkoutEnded updates an existing entry and is skipped with a warning for an
unknown workout_id. -/
def replayWorkoutStep (workouts : List WorkoutProjection) (e : Event) :
    List WorkoutProjection :=
  match e.payload with
  | .workoutStarted wid started_at =>
    if workouts.any (widMatch wid) then
      updateFirst (widMatch wid)
        (fun _ => ⟨wid, e.user_id, started_at, none, "in_progress"⟩) workouts
    else
      workouts ++ [⟨wid, e.user_id, started_at, none, "in_progress"⟩]
  | .workoutEnded wid ended_at =>
    if workouts.any (widMatch wid) then
      updateFirst (widMatch wid) (fun w =>
        { w with ended_at := some ended_at, status := "completed" }) workouts
    else workouts
  | _ => workouts

/-- One step of the set pass of `_replay_events` (projection_service.py
lines 106-130): `workouts` is the finished dict of the workout pass; a
SetCompleted for a workout_id absent from it is skipped, otherwise the
`sets` dict entry keyed by set_id is overwritten or appended. -/
def replaySetStep (workouts : List WorkoutProjection)
    (sets : List SetProjection) (e : Event) : List SetProjection :=
  match e.payload with
  | .setCompleted wid eid sid reps weight completed_at =>
    if workouts.any (widMatch wid) then
      if sets.any (sidMatch sid) then
        updateFirst (sidMatch sid)
          (fun _ => ⟨sid, wid, eid, some reps, some weight, completed_at⟩) sets
      else
        sets ++ [⟨sid, wid, eid, some reps, some weight, completed_at⟩]
    else sets
  | _ => sets

/-- The workout table `_replay_events` derives from an ordered event list
(its insertion loop writes the dict values in dict order). -/
def replayWorkouts (events : List Event) : List WorkoutProjection :=
  events.foldl replayWorkoutStep []

/-- The set table `_replay_events` derives from an ordered event list, given
the finished workout table of the first pass. -/
def replaySets (workouts : List WorkoutProjection) (events : List Event) :
    List SetProjection :=
  events.foldl (replaySetStep workouts) []

/-- `WorkoutProjectionBuilder._replay_events` (projection_service.py lines
44-144): replay the full event log in (device_id, sequence_number) order —
one pass building the workout dict, insert and commit it, then one pass
building the set dict (orphans skipped) and insert it. -/
def _replay_events (db : DB) : DB :=
  let events := sortByLe eventLe db.events
  let workouts := replayWorkouts events
  let sets := replaySets workouts events
  { db with workouts := workouts, sets := sets }

/-- `WorkoutProjectionBuilder._rebuild_metrics_for_all_users`
(projection_service.py lines 331-347): rebuild weekly metrics for every
distinct user_id appearing in the workout projections. -/
def _rebuild_metrics_for_all_users (db : DB) : DB :=
  let user_ids := distinctList (db.workouts.map (·.user_id))
  user_ids.foldl rebuild_weekly_metrics db

/-- `WorkoutProjectionBuilder.rebuild_projections` (projection_service.py
lines 26-42): truncate set projections then workout projections, replay the
full event log, then rebuild weekly metrics for all users who have
workouts. -/
def rebuild_projections (db : DB) : DB :=
  let cleared := { db with sets := [], workouts := [] }
  _rebuild_metrics_for_all_users (_replay_events cleared)

/-! ### SyncService (sync_service.py) -/

/-- Result of a sync operation (`SyncResult`). -/
structure SyncResult where
  accepted_count : Nat
  rejected_count : Nat
  last_acked_sequence : Option Int
  rejected_event_ids : List Nat
deriving DecidableEq, Repr

/-- Ack-cursor update: `if last_acked_sequence is None or seq >
last_acked_sequence: last_acked_sequence = seq`. -/
def bumpAck (ack : Option Int) (seq : Int) : Option Int :=
  match ack with
  | none => some seq
  | some a => if seq > a then some seq else some a

/-- The batch-shape guard of `sync_events` (sync_service.py lines 67-83):
the batch passes iff its sequence_numbers equal `sorted(set(...))` of
themselves. (Its two failing sub-branches — duplicate found, or reordering —
return the same all-rejected result and are modelled as one.) -/
def batchShapeOk (events : List InEvent) : Bool :=
  events.map (·.sequence_number) ==
    sortByLe intLe (distinctList (events.map (·.sequence_number)))

/-- State of the per-event classification loop of `sync_events` (lines
97-134). `events_to_insert` stages the validated payload together with the
caller's user_id and device_id, which the source attaches when it builds the
`Event` rows at insert time. -/
structure LoopState where
  accepted_count : Nat
  rejected_count : Nat
  rejected_event_ids : List Nat
  last_acked_sequence : Option Int
  events_to_insert : List Event
deriving Repr

/-- One iteration of the classification loop (lines 97-134): reject on
payload-validation failure; count an already-stored event_id as an
accepted duplicate and bump the ack cursor; otherwise stage for insertion. -/
def classifyStep (db : DB) (device_id user_id : Nat) (st : LoopState)
    (e : InEvent) : LoopState :=
  match validate_event_payload e.event_type e.payload with
  | .error _ =>
    { st with rejected_count := st.rejected_count + 1,
              rejected_event_ids := st.rejected_event_ids ++ [e.event_id] }
  | .ok p =>
    if db.events.any (fun ev => ev.event_id == e.event_id) then
      { st with accepted_count := st.accepted_count + 1,
                last_acked_sequence := bumpAck st.last_acked_sequence e.sequence_number }
    else
      { st with events_to_insert := st.events_to_insert ++
          [⟨e.event_id, p, user_id, device_id, e.sequence_number⟩] }

/-- The whole classification loop of `sync_events` (lines 97-134), started
from the zeroed counters of lines 62-65. -/
def classifyBatch (db : DB) (device_id user_id : Nat)
    (events : List InEvent) : LoopState :=
  events.foldl (classifyStep db device_id user_id) ⟨0, 0, [], none, []⟩

/-- The per-event fallback insertion loop of `sync_events` (lines 199-234):
insert each staged event individually, treating an already-present event_id
(an `IntegrityError`) as an accepted duplicate; both outcomes count as
accepted and bump the ack cursor. -/
def insertIndividually (start : DB × Nat × Option Int) (evs : List Event) :
    DB × Nat × Option Int :=
  evs.foldl (fun acc ev =>
    if acc.1.events.any (fun e0 => e0.event_id == ev.event_id) then
      (acc.1, acc.2.1 + 1, bumpAck acc.2.2 ev.sequence_number)
    else
      ({ acc.1 with events := acc.1.events ++ [ev] }, acc.2.1 + 1,
       bumpAck acc.2.2 ev.sequence_number)) start

/-- `SyncService.sync_events` (sync_service.py lines 45-252), embedded for a
sequential, single-writer run. The batch existence probe is the single
`event_id IN (...)` query of lines 91-95. The only unique key on `events`
is the `event_id` primary key, so the bulk insert's `IntegrityError` fires
exactly when two staged events share an event_id (the other trigger, a
racing concurrent writer, does not exist in the sequential model); the
per-event fallback of lines 195-234 then treats an already-present event_id
as an accepted duplicate. Note that the fallback path performs no
projection handoff, and that a projection-update failure cannot occur in
the pure model (lines 174-186). -/
def sync_events (db : DB) (device_id user_id : Nat) (events : List InEvent) :
    DB × SyncResult :=
  if !batchShapeOk events then
    (db, ⟨0, events.length, none, events.map (·.event_id)⟩)
  else
    let st := classifyBatch db device_id user_id events
    if st.events_to_insert.isEmpty then
      (db, ⟨st.accepted_count, st.rejected_count, st.last_acked_sequence,
            st.rejected_event_ids⟩)
    else if (st.events_to_insert.map (·.event_id)).Nodup ∧
        ∀ ev ∈ st.events_to_insert,
          ¬ db.events.any (fun e0 => e0.event_id == ev.event_id) then
      -- atomic bulk insert, commit, then projection handoff of the newly
      -- inserted events re-fetched in (device_id, sequence_number) order
      let db1 := { db with events := db.events ++ st.events_to_insert }
      let new_event_objects := sortByLe eventLe st.events_to_insert
      let db2 := update_projections db1 new_event_objects user_id
      let ack := st.events_to_insert.foldl
        (fun a ev => bumpAck a ev.sequence_number) st.last_acked_sequence
      (db2, ⟨st.accepted_count + st.events_to_insert.length, st.rejected_count,
             ack, st.rejected_event_ids⟩)
    else
      -- IntegrityError: roll back and fall back to per-event insertion,
      -- treating a unique-constraint violation as an accepted duplicate
      let fb := insertIndividually
        (db, st.accepted_count, st.last_acked_sequence) st.events_to_insert
      (fb.1, ⟨fb.2.1, st.rejected_count, fb.2.2, st.rejected_event_ids⟩)

/-! ### UserMergeService (user_merge_service.py) -/

/-- Statistics dictionary returned by a merge. -/
structure MergeStats where
  merged : Bool
  events_updated : Nat
  workouts_updated : Nat
  metrics_updated : Nat
  reports_updated : Nat
deriving DecidableEq, Repr

/-- `UserMergeService.merge_user_data` (user_merge_service.py lines 26-140).
`Except.error` is a raised `ValueError` (any transaction in progress is
rolled back, leaving the database unchanged). The idempotency check counts
only `events` rows of the anonymous user; when it fires, nothing is touched
and a no-op result is returned. Otherwise events, workout projections,
weekly metrics and weekly reports are re-keyed to the real user (sets follow
workouts by foreign key), the anonymous user row is deleted, and the update
counts are the SQL rowcounts. -/
def merge_user_data (db : DB) (anonymous_user_id real_user_id : Nat) :
    Except String (DB × MergeStats) :=
  match db.users.find? (fun u => u.user_id == anonymous_user_id) with
  | none => .error ("Anonymous user " ++ toString anonymous_user_id ++ " not found")
  | some anonymous_user =>
    match db.users.find? (fun u => u.user_id == real_user_id) with
    | none => .error ("Real user " ++ toString real_user_id ++ " not found")
    | some real_user =>
      if !anonymous_user.is_anonymous then
        .error "is not anonymous (already merged?)"
      else if real_user.is_anonymous then
        .error "is anonymous (cannot merge to anonymous user)"
      else
        let event_count := (db.events.filter
          (fun e => e.user_id == anonymous_user_id)).length
        if event_count == 0 then
          .ok (db, ⟨false, 0, 0, 0, 0⟩)
        else
          let events_updated := (db.events.filter
            (fun e => e.user_id == anonymous_user_id)).length
          let workouts_updated := (db.workouts.filter
            (fun w => w.user_id == anonymous_user_id)).length
          let metrics_updated := (db.metrics.filter
            (fun m => m.user_id == anonymous_user_id)).length
          let reports_updated := (db.reports.filter
            (fun r => r.user_id == anonymous_user_id)).length
          let db := { db with
            events := db.events.map (fun e =>
              if e.user_id == anonymous_user_id then
                { e with user_id := real_user_id } else e),
            workouts := db.workouts.map (fun w =>
              if w.user_id == anonymous_user_id then
                { w with user_id := real_user_id } else w),
            metrics := db.metrics.map (fun m =>
              if m.user_id == anonymous_user_id then
                { m with user_id := real_user_id } else m),
            reports := db.reports.map (fun r =>
              if r.user_id == anonymous_user_id then
                { r with user_id := real_user_id } else r),
            users := db.users.eraseP (fun u => u.user_id == anonymous_user_id) }
          .ok (db, ⟨true, events_updated, workouts_updated, metrics_updated,
                    reports_updated⟩)

/-! ### Iterated sync (used to state idempotency over k repeats) -/

/-- `k` further sync calls of the same batch from the same device and
user. -/
def syncIter (device_id user_id : Nat) (events : List InEvent) :
    Nat → DB → DB
  | 0, db => db
  | k + 1, db => syncIter device_id user_id events k
      (sync_events db device_id user_id events).1

/-- The whole-database effect of a sequence of sync calls from one device
and user: fold `sync_events` over the batches in call order. -/
def syncAll (device_id user_id : Nat) (db : DB) (Bs : List (List InEvent)) :
    DB :=
  Bs.foldl (fun db B => (sync_events db device_id user_id B).1) db

/-- Correspondence between a raw client event and its stored form: the
payload validates to the stored typed payload and the key columns agree
(the stored row carries the caller's user and device). -/
def validatesTo (device_id user_id : Nat) (e : InEvent) (ev : Event) : Prop :=
  validate_event_payload e.event_type e.payload = .ok ev.payload ∧
  ev.event_id = e.event_id ∧ ev.user_id = user_id ∧
  ev.device_id = device_id ∧ ev.sequence_number = e.sequence_number

/-- One step of the well-formedness scan over an event log, tracking which
workout_ids have been started and which have been ended so far: a
WorkoutStarted must not restart an already-ended workout, a WorkoutEnded
must follow a WorkoutStarted of its workout, and a SetCompleted must follow
the WorkoutStarted of its workout. This is verification apparatus (not
source code): it delimits the class of logs on which the incremental
updater and the rebuilder provably agree. -/
def wfStep (acc : List Nat × List Nat) (e : Event) :
    Option (List Nat × List Nat) :=
  match e.payload with
  | .workoutStarted wid _ =>
    if wid ∈ acc.2 then none else some (insertUniq acc.1 wid, acc.2)
  | .workoutEnded wid _ =>
    if wid ∈ acc.1 then some (acc.1, insertUniq acc.2 wid) else none
  | .setCompleted wid _ _ _ _ _ => if wid ∈ acc.1 then some acc else none
  | .exerciseAdded _ _ _ => some acc

/-- The well-formedness scan over a whole event log (see `wfStep`). -/
def wfScan (L : List Event) : Option (List Nat × List Nat) :=
  L.foldlM wfStep ([], [])

/-- Invariant tying a workout-projection table to the scan state of the log
that produced it: the table's keys are exactly the started workouts, a row
is completed exactly when its workout has been ended, all rows belong to
the one user, and keys are unique. Verification apparatus for the
sync→rebuild equivalence. -/
def WInv (m : List WorkoutProjection) (started ended : List Nat)
    (u : Nat) : Prop :=
  (∀ wid, wid ∈ m.map (fun r => r.workout_id) ↔ wid ∈ started) ∧
  (∀ r ∈ m, (r.status = "completed" ↔ r.workout_id ∈ ended)) ∧
  (∀ r ∈ m, r.user_id = u) ∧
  (m.map (fun r => r.workout_id)).Nodup

/-! ### Concrete test vectors -/

/-- Raw JSON payload of a WorkoutStarted event, as a client sends it. -/
def rawStarted (workout_id : Nat) (t : DateTime) : JObj :=
  [("workout_id", .uuid workout_id), ("started_at", .time t)]

/-- Raw JSON payload of a WorkoutEnded event. -/
def rawEnded (workout_id : Nat) (t : DateTime) : JObj :=
  [("workout_id", .uuid workout_id), ("ended_at", .time t)]

/-- Raw JSON payload of a SetCompleted event. -/
def rawSet (workout_id exercise_id set_id : Nat) (reps : Int) (weight : Rat)
    (t : DateTime) : JObj :=
  [("workout_id", .uuid workout_id), ("exercise_id", .uuid exercise_id),
   ("set_id", .uuid set_id), ("reps", .int reps), ("weight", .num weight),
   ("completed_at", .time t)]

/-- A database with every table empty. -/
def emptyDB : DB := ⟨[], [], [], [], [], []⟩

/-- A Thursday-morning instant (ordinal 738000 falls on a Thursday; the
Monday of its week is ordinal 737997). -/
def dtA : DateTime := ⟨738000, 10⟩

/-- A later instant on the same Thursday. -/
def dtB : DateTime := ⟨738000, 50⟩

/-- A Friday instant, one day later. -/
def dtC : DateTime := ⟨738001, 20⟩

/-- A valid happy-path batch: WorkoutStarted, SetCompleted, WorkoutEnded for
one workout, sequence numbers 1..3. -/
def happyBatch : List InEvent :=
  [⟨101, "WorkoutStarted", rawStarted 7 dtA, 1⟩,
   ⟨102, "SetCompleted", rawSet 7 3 51 10 100 dtB, 2⟩,
   ⟨103, "WorkoutEnded", rawEnded 7 dtC, 3⟩]

/-- A batch of two payload-valid events sharing sequence_number 1. -/
def dupSeqBatch : List InEvent :=
  [⟨601, "WorkoutStarted", rawStarted 7 dtA, 1⟩,
   ⟨602, "WorkoutEnded", rawEnded 7 dtC, 1⟩]

/-- A batch whose only event is a WorkoutEnded with no matching
WorkoutStarted anywhere. -/
def orphanEndBatch : List InEvent :=
  [⟨301, "WorkoutEnded", rawEnded 8 dtC, 1⟩]

/-- A batch holding a WorkoutEnded at sequence 1 and the matching
WorkoutStarted at sequence 2, with distinct timestamps. -/
def endBeforeStartBatch : List InEvent :=
  [⟨401, "WorkoutEnded", rawEnded 9 dtC, 1⟩,
   ⟨402, "WorkoutStarted", rawStarted 9 dtA, 2⟩]

/-- A one-call batch sequence around `happyBatch`: a well-formed log
(started, set, ended of workout 7) as device 5 / user 7 would sync it. -/
def c2Bs : List (List InEvent) := [happyBatch]

/-- The stored event rows corresponding to `c2Bs` under device 5 / user 7. -/
def c2Es : List (List Event) :=
  [[⟨101, .workoutStarted 7 dtA, 7, 5, 1⟩,
    ⟨102, .setCompleted 7 3 51 10 100 dtB, 7, 5, 2⟩,
    ⟨103, .workoutEnded 7 dtC, 7, 5, 3⟩]]

/-- An anonymous user (id 1) with a one-event history, next to a registered
user (id 2): the state of the spec's merge scenario. -/
def mergeDB : DB :=
  { users := [⟨1, true⟩, ⟨2, false⟩],
    events := [⟨500, .workoutStarted 7 dtA, 1, 5, 1⟩],
    workouts := [⟨7, 1, dtA, none, "in_progress"⟩],
    sets := [],
    metrics := [⟨1, 737997, 1, 100, 1⟩],
    reports := [] }

/-- An anonymous user (id 1) with zero events but a workout projection and a
weekly-metrics row, next to a registered user (id 2). -/
def zeroEventDB : DB :=
  { users := [⟨1, true⟩, ⟨2, false⟩],
    events := [],
    workouts := [⟨7, 1, dtA, none, "in_progress"⟩],
    sets := [],
    metrics := [⟨1, 737997, 1, 100, 1⟩],
    reports := [] }

/-- Projection state with one completed workout (two sets, one null-reps)
and one in-progress workout for user 1 in the week of Monday 737997, plus a
completed workout of user 2, and a stale metrics row to be overwritten. -/
def c5DB : DB :=
  { users := [],
    events := [],
    workouts := [⟨7, 1, dtA, some dtC, "completed"⟩,
                 ⟨8, 1, dtB, none, "in_progress"⟩,
                 ⟨9, 2, dtA, some dtB, "completed"⟩],
    sets := [⟨51, 7, 3, some 10, some 100, dtB⟩,
             ⟨52, 7, 4, none, some 50, dtB⟩,
             ⟨53, 9, 3, some 5, some 80, dtB⟩],
    metrics := [⟨1, 737997, 0, 0, 0⟩],
    reports := [] }

/-! ### Library lemmas about the list primitives of the embedding -/

theorem updateFirst_cons_pos {p : α → Bool} (f : α → α) {x : α} (xs : List α)
    (h : p x = true) : updateFirst p f (x :: xs) = f x :: xs := by
  simp [updateFirst, h]

theorem updateFirst_cons_neg {p : α → Bool} (f : α → α) {x : α} (xs : List α)
    (h : p x = false) : updateFirst p f (x :: xs) = x :: updateFirst p f xs := by
  simp [updateFirst, h]

theorem updateFirst_of_not_any (p : α → Bool) (f : α → α) :
    ∀ l : List α, l.any p = false → updateFirst p f l = l := by
  intro l h
  induction l with
  | nil => rfl
  | cons x xs ih =>
    simp only [List.any_cons, Bool.or_eq_false_iff] at h
    rw [updateFirst_cons_neg f xs h.1, ih h.2]

theorem mem_updateFirst_of_not (p : α → Bool) (f : α → α) {l : List α} {x : α}
    (hx : x ∈ l) (hp : p x = false) : x ∈ updateFirst p f l := by
  induction l with
  | nil => simp at hx
  | cons a t ih =>
    rcases List.mem_cons.mp hx with rfl | hxt
    · rw [updateFirst_cons_neg f t hp]
      exact List.mem_cons_self _ _
    · by_cases ha : p a = true
      · rw [updateFirst_cons_pos f t ha]
        exact List.mem_cons_of_mem _ hxt
      · rw [updateFirst_cons_neg f t (by simpa using ha)]
        exact List.mem_cons_of_mem _ (ih hxt)

theorem updateFirst_eq_self (p : α → Bool) (f : α → α) :
    ∀ l : List α, ∀ x, l.find? p = some x → f x = x → updateFirst p f l = l := by
  intro l
  induction l with
  | nil => intro x hx; simp at hx
  | cons a t ih =>
    intro x hx hfx
    by_cases ha : p a = true
    · rw [List.find?_cons_of_pos _ ha] at hx
      cases hx
      rw [updateFirst_cons_pos f t ha, hfx]
    · have ha' : p a = false := by simpa using ha
      rw [List.find?_cons_of_neg _ (by simp [ha'])] at hx
      rw [updateFirst_cons_neg f t ha', ih x hx hfx]

theorem updateFirst_append_of_not_any (p : α → Bool) (f : α → α)
    (l l' : List α) (h : l.any p = false) :
    updateFirst p f (l ++ l') = l ++ updateFirst p f l' := by
  induction l with
  | nil => rfl
  | cons x xs ih =>
    simp only [List.any_cons, Bool.or_eq_false_iff] at h
    rw [List.cons_append, updateFirst_cons_neg f _ h.1, ih h.2, List.cons_append]

theorem find?_updateFirst_of_key (p q : α → Bool) (f : α → α)
    (hrows : ∀ x, p x = true → q x = false ∧ q (f x) = false) :
    ∀ l : List α, (updateFirst p f l).find? q = l.find? q := by
  intro l
  induction l with
  | nil => rfl
  | cons a t ih =>
    by_cases ha : p a = true
    · have h2 := hrows a ha
      rw [updateFirst_cons_pos f t ha,
          List.find?_cons_of_neg _ (by simp [h2.2]),
          List.find?_cons_of_neg _ (by simp [h2.1])]
    · have ha' : p a = false := by simpa using ha
      rw [updateFirst_cons_neg f t ha']
      by_cases hq : q a = true
      · rw [List.find?_cons_of_pos _ hq, List.find?_cons_of_pos _ hq]
      · have hq' : q a = false := by simpa using hq
        rw [List.find?_cons_of_neg _ (by simp [hq']),
            List.find?_cons_of_neg _ (by simp [hq']), ih]

theorem filter_updateFirst_not (p q : α → Bool) (f : α → α)
    (hrows : ∀ x, p x = true → q x = false ∧ q (f x) = false) :
    ∀ l : List α, (updateFirst p f l).filter q = l.filter q := by
  intro l
  induction l with
  | nil => rfl
  | cons a t ih =>
    by_cases ha : p a = true
    · have h2 := hrows a ha
      rw [updateFirst_cons_pos f t ha,
          List.filter_cons_of_neg (by simp [h2.2]),
          List.filter_cons_of_neg (by simp [h2.1])]
    · have ha' : p a = false := by simpa using ha
      rw [updateFirst_cons_neg f t ha']
      by_cases hq : q a = true
      · rw [List.filter_cons_of_pos hq, List.filter_cons_of_pos hq, ih]
      · have hq' : q a = false := by simpa using hq
        rw [List.filter_cons_of_neg (by simp [hq']),
            List.filter_cons_of_neg (by simp [hq']), ih]

theorem filter_updateFirst_singleton (p : α → Bool) (f : α → α)
    (hpres : ∀ x, p x = true → p (f x) = true) :
    ∀ l : List α, ∀ x, l.filter p = [x] →
      (updateFirst p f l).filter p = [f x] := by
  intro l
  induction l with
  | nil => intro x hx; simp at hx
  | cons a t ih =>
    intro x hx
    by_cases ha : p a = true
    · rw [List.filter_cons_of_pos ha] at hx
      have hax : a = x := (List.cons_eq_cons.mp hx).1
      have hrest : t.filter p = [] := (List.cons_eq_cons.mp hx).2
      rw [updateFirst_cons_pos f t ha,
          List.filter_cons_of_pos (hpres a ha), hrest]
      cases hax; rfl
    · have ha' : p a = false := by simpa using ha
      rw [List.filter_cons_of_neg (by simp [ha'])] at hx
      rw [updateFirst_cons_neg f t ha',
          List.filter_cons_of_neg (by simp [ha']), ih x hx]

theorem mem_insertUniq [DecidableEq α] (xs : List α) (x a : α) :
    a ∈ insertUniq xs x ↔ a ∈ xs ∨ a = x := by
  unfold insertUniq
  by_cases hx : x ∈ xs
  · rw [if_pos hx]
    constructor
    · exact Or.inl
    · rintro (h | rfl)
      · exact h
      · exact hx
  · rw [if_neg hx]
    simp

theorem nodup_insertUniq [DecidableEq α] (xs : List α) (x : α)
    (h : xs.Nodup) : (insertUniq xs x).Nodup := by
  unfold insertUniq
  by_cases hx : x ∈ xs
  · rwa [if_pos hx]
  · rw [if_neg hx]
    simpa [List.nodup_append] using ⟨h, hx⟩

theorem mem_foldl_insertUniq [DecidableEq α] :
    ∀ (l acc : List α) (a : α),
      a ∈ l.foldl insertUniq acc ↔ a ∈ acc ∨ a ∈ l := by
  intro l
  induction l with
  | nil => simp
  | cons x t ih =>
    intro acc a
    rw [List.foldl_cons, ih, mem_insertUniq]
    simp only [List.mem_cons]
    tauto

theorem nodup_foldl_insertUniq [DecidableEq α] :
    ∀ (l acc : List α), acc.Nodup → (l.foldl insertUniq acc).Nodup := by
  intro l
  induction l with
  | nil => intro acc h; exact h
  | cons x t ih =>
    intro acc h
    exact ih _ (nodup_insertUniq acc x h)

theorem mem_distinctList [DecidableEq α] (l : List α) (a : α) :
    a ∈ distinctList l ↔ a ∈ l := by
  unfold distinctList
  rw [mem_foldl_insertUniq]
  simp

theorem nodup_distinctList [DecidableEq α] (l : List α) :
    (distinctList l).Nodup :=
  nodup_foldl_insertUniq l [] List.nodup_nil

theorem foldl_insertUniq_of_nodup [DecidableEq α] :
    ∀ (l acc : List α), (acc ++ l).Nodup → l.foldl insertUniq acc = acc ++ l := by
  intro l
  induction l with
  | nil => intro acc _; simp
  | cons x t ih =>
    intro acc h
    have hx : x ∉ acc := fun hmem => by
      rw [List.nodup_append] at h
      exact h.2.2 hmem (List.mem_cons_self _ _)
    rw [List.foldl_cons, insertUniq, if_neg hx, ih (acc ++ [x]) (by simpa using h)]
    simp

theorem distinctList_of_nodup [DecidableEq α] (l : List α) (h : l.Nodup) :
    distinctList l = l := by
  unfold distinctList
  rw [foldl_insertUniq_of_nodup l [] (by simpa using h)]
  simp

theorem length_distinctList_eq_card [DecidableEq α] (l : List α) :
    (distinctList l).length = l.toFinset.card := by
  have h1 : (distinctList l).toFinset = l.toFinset := by
    apply Finset.ext
    intro a
    simp [List.mem_toFinset, mem_distinctList]
  rw [← h1, List.toFinset_card_of_nodup (nodup_distinctList l)]

theorem mem_insertByLe (le : α → α → Bool) (x a : α) :
    ∀ l : List α, a ∈ insertByLe le x l ↔ a = x ∨ a ∈ l := by
  intro l
  induction l with
  | nil => simp [insertByLe]
  | cons y ys ih =>
    unfold insertByLe
    by_cases h : le x y = true
    · rw [if_pos h]
      simp
    · rw [if_neg h]
      simp only [List.mem_cons, ih]
      tauto

theorem insertByLe_perm (le : α → α → Bool) (x : α) :
    ∀ l : List α, (insertByLe le x l).Perm (x :: l) := by
  intro l
  induction l with
  | nil => simp [insertByLe]
  | cons y ys ih =>
    unfold insertByLe
    by_cases h : le x y = true
    · rw [if_pos h]
    · rw [if_neg h]
      exact (List.Perm.cons y ih).trans (List.Perm.swap x y ys)

theorem sortByLe_perm (le : α → α → Bool) :
    ∀ l : List α, (sortByLe le l).Perm l := by
  intro l
  induction l with
  | nil => simp [sortByLe]
  | cons x xs ih =>
    unfold sortByLe
    exact (insertByLe_perm le x (sortByLe le xs)).trans (List.Perm.cons x ih)

theorem pairwise_insertByLe (le : α → α → Bool)
    (htot : ∀ a b, le a b = true ∨ le b a = true)
    (htrans : ∀ a b c, le a b = true → le b c = true → le a c = true)
    (x : α) :
    ∀ l : List α, l.Pairwise (fun a b => le a b = true) →
      (insertByLe le x l).Pairwise (fun a b => le a b = true) := by
  intro l
  induction l with
  | nil => intro _; simp [insertByLe]
  | cons y ys ih =>
    intro h
    rw [List.pairwise_cons] at h
    unfold insertByLe
    by_cases hxy : le x y = true
    · rw [if_pos hxy]
      refine List.Pairwise.cons ?_ (List.Pairwise.cons h.1 h.2)
      intro z hz
      rcases List.mem_cons.mp hz with rfl | hzys
      · exact hxy
      · exact htrans x y z hxy (h.1 z hzys)
    · rw [if_neg hxy]
      have hyx : le y x = true := by
        rcases htot x y with h' | h'
        · exact absurd h' hxy
        · exact h'
      refine List.Pairwise.cons ?_ (ih h.2)
      intro z hz
      rcases (mem_insertByLe le x z ys).mp hz with rfl | hzys
      · exact hyx
      · exact h.1 z hzys

theorem sortByLe_sorted (le : α → α → Bool)
    (htot : ∀ a b, le a b = true ∨ le b a = true)
    (htrans : ∀ a b c, le a b = true → le b c = true → le a c = true) :
    ∀ l : List α, (sortByLe le l).Pairwise (fun a b => le a b = true) := by
  intro l
  induction l with
  | nil => simp [sortByLe]
  | cons x xs ih =>
    unfold sortByLe
    exact pairwise_insertByLe le htot htrans x _ ih

theorem sortByLe_of_sorted (le : α → α → Bool) :
    ∀ l : List α, l.Pairwise (fun a b => le a b = true) → sortByLe le l = l := by
  intro l
  induction l with
  | nil => intro _; rfl
  | cons x xs ih =>
    intro h
    rw [List.pairwise_cons] at h
    unfold sortByLe
    rw [ih h.2]
    cases xs with
    | nil => rfl
    | cons y ys =>
      unfold insertByLe
      rw [if_pos (h.1 y (List.mem_cons_self _ _))]

/-! ### Facts about the sequence-number order and the batch-shape guard -/

theorem intLe_iff (a b : Int) : intLe a b = true ↔ a ≤ b := by
  simp [intLe]

theorem intLe_total (a b : Int) : intLe a b = true ∨ intLe b a = true := by
  rw [intLe_iff, intLe_iff]
  omega

theorem intLe_trans (a b c : Int) (h1 : intLe a b = true)
    (h2 : intLe b c = true) : intLe a c = true := by
  rw [intLe_iff] at h1 h2 ⊢
  omega

/-- The batch-shape guard of `sync_events` passes exactly on the batches
whose sequence_numbers are strictly increasing. -/
theorem batchShapeOk_iff (events : List InEvent) :
    batchShapeOk events = true ↔
      (events.map (fun e => e.sequence_number)).Pairwise (· < ·) := by
  unfold batchShapeOk
  rw [beq_iff_eq]
  constructor
  · intro h
    have hnd : (events.map (fun e => e.sequence_number)).Nodup := by
      rw [h]
      exact ((sortByLe_perm intLe _).nodup_iff).mpr
        (nodup_distinctList (events.map (fun e => e.sequence_number)))
    have hsorted : (events.map (fun e => e.sequence_number)).Pairwise
        (fun a b => intLe a b = true) := by
      rw [h]
      exact sortByLe_sorted intLe intLe_total intLe_trans _
    exact (hsorted.and hnd).imp
      (fun hab => lt_of_le_of_ne ((intLe_iff _ _).mp hab.1) hab.2)
  · intro h
    have hnd : (events.map (fun e => e.sequence_number)).Nodup :=
      h.imp (fun hab => ne_of_lt hab)
    rw [distinctList_of_nodup _ hnd,
        sortByLe_of_sorted intLe _
          (h.imp (fun hab => (intLe_iff _ _).mpr (le_of_lt hab)))]

/-- C4: a batch whose sequence_numbers are not strictly increasing is
rejected whole — `accepted_count = 0`, every event_id of the batch in
`rejected_event_ids`, `last_acked_sequence = null`, and the database (hence
the `events` table) is returned unchanged; a batch with strictly increasing
sequence_numbers passes the batch-shape guard, so this whole-batch rejection
does not occur. -/
theorem c4_batch_shape_validation (db : DB) (device_id user_id : Nat)
    (events : List InEvent) :
    (¬ (events.map (fun e => e.sequence_number)).Pairwise (· < ·) →
        sync_events db device_id user_id events =
          (db, ⟨0, events.length, none, events.map (fun e => e.event_id)⟩)) ∧
    ((events.map (fun e => e.sequence_number)).Pairwise (· < ·) →
        batchShapeOk events = true) := by
  constructor
  · intro h
    have hfalse : batchShapeOk events = false := by
      rcases Bool.eq_false_or_eq_true (batchShapeOk events) with h' | h'
      · exact absurd ((batchShapeOk_iff events).mp h') h
      · exact h'
    unfold sync_events
    rw [hfalse]
    rfl
  · exact (batchShapeOk_iff events).mpr

/-- Witness for C4, at the concrete reordered batch [1, 3, 2] of the spec's
scenario 4 and at the strictly increasing happy-path batch. -/
theorem c4_batch_shape_validation_witness :
    (sync_events emptyDB 5 9
        [⟨701, "WorkoutStarted", rawStarted 7 dtA, 1⟩,
         ⟨702, "WorkoutEnded", rawEnded 7 dtC, 3⟩,
         ⟨703, "WorkoutStarted", rawStarted 8 dtB, 2⟩] =
      (emptyDB, ⟨0, 3, none, [701, 702, 703]⟩)) ∧
    batchShapeOk happyBatch = true := by
  constructor
  · exact (c4_batch_shape_validation emptyDB 5 9 _).1 (by decide)
  · exact (c4_batch_shape_validation emptyDB 5 9 happyBatch).2 (by decide)

/-! ### Evaluation lemmas for the validator and the service plumbing -/

theorem validate_rawStarted (w : Nat) (t : DateTime) :
    validate_event_payload "WorkoutStarted" (rawStarted w t) =
      .ok (.workoutStarted w t) := rfl

theorem validate_rawEnded (w : Nat) (t : DateTime) :
    validate_event_payload "WorkoutEnded" (rawEnded w t) =
      .ok (.workoutEnded w t) := rfl

theorem validate_rawSet (w e s : Nat) (reps : Int) (weight : Rat)
    (t : DateTime) (hr : 0 < reps) (hw : 0 < weight) :
    validate_event_payload "SetCompleted" (rawSet w e s reps weight t) =
      .ok (.setCompleted w e s reps weight t) := by
  have hstep : validate_event_payload "SetCompleted" (rawSet w e s reps weight t) =
      if reps > 0 then
        (if weight > 0 then .ok (.setCompleted w e s reps weight t)
         else .error "weight: must be greater than 0")
      else .error "reps: must be greater than 0" := rfl
  rw [hstep, if_pos hr, if_pos hw]

theorem update_projections_users (db : DB) (E : List Event) (u : Nat) :
    (update_projections db E u).users = db.users := rfl

theorem update_projections_events (db : DB) (E : List Event) (u : Nat) :
    (update_projections db E u).events = db.events := rfl

theorem update_projections_reports (db : DB) (E : List Event) (u : Nat) :
    (update_projections db E u).reports = db.reports := rfl

theorem update_projections_workouts (db : DB) (E : List Event) (u : Nat) :
    (update_projections db E u).workouts =
      (E.filter isWorkoutEvent).foldl applyWorkoutEvent db.workouts := rfl

theorem update_projections_sets (db : DB) (E : List Event) (u : Nat) :
    (update_projections db E u).sets =
      (E.filter isSetEvent).foldl
        (applySetEvent ((E.filter isWorkoutEvent).foldl applyWorkoutEvent
          db.workouts)) db.sets := rfl

theorem rebuild_weekly_metrics_users (db : DB) (u : Nat) :
    (rebuild_weekly_metrics db u).users = db.users := rfl

theorem rebuild_weekly_metrics_events (db : DB) (u : Nat) :
    (rebuild_weekly_metrics db u).events = db.events := rfl

theorem rebuild_weekly_metrics_workouts (db : DB) (u : Nat) :
    (rebuild_weekly_metrics db u).workouts = db.workouts := rfl

theorem rebuild_weekly_metrics_sets (db : DB) (u : Nat) :
    (rebuild_weekly_metrics db u).sets = db.sets := rfl

theorem rebuild_weekly_metrics_reports (db : DB) (u : Nat) :
    (rebuild_weekly_metrics db u).reports = db.reports := rfl

/-- Evaluation of `sync_events` on its bulk-insert path: shape guard
passed, at least one staged event, staged event_ids pairwise distinct and
absent from the store. -/
theorem sync_events_bulk (db : DB) (device_id user_id : Nat)
    (events : List InEvent)
    (hshape : batchShapeOk events = true)
    (hne : (classifyBatch db device_id user_id events).events_to_insert.isEmpty
      = false)
    (hok : ((classifyBatch db device_id user_id events).events_to_insert.map
        (fun e => e.event_id)).Nodup ∧
      ∀ ev ∈ (classifyBatch db device_id user_id events).events_to_insert,
        ¬ db.events.any (fun e0 => e0.event_id == ev.event_id) = true) :
    sync_events db device_id user_id events =
      (update_projections
        { db with events := db.events ++
            (classifyBatch db device_id user_id events).events_to_insert }
        (sortByLe eventLe
          (classifyBatch db device_id user_id events).events_to_insert)
        user_id,
       ⟨(classifyBatch db device_id user_id events).accepted_count +
          (classifyBatch db device_id user_id events).events_to_insert.length,
        (classifyBatch db device_id user_id events).rejected_count,
        (classifyBatch db device_id user_id events).events_to_insert.foldl
          (fun a ev => bumpAck a ev.sequence_number)
          (classifyBatch db device_id user_id events).last_acked_sequence,
        (classifyBatch db device_id user_id events).rejected_event_ids⟩) := by
  unfold sync_events
  rw [hshape]
  simp only [Bool.not_true, Bool.false_eq_true, if_false, hne, if_pos hok]

/-- Evaluation of `sync_events` when no event is staged for insertion (for
example because every event is an accepted duplicate): the database is
returned unchanged with the loop counters. -/
theorem sync_events_no_insert (db : DB) (device_id user_id : Nat)
    (events : List InEvent)
    (hshape : batchShapeOk events = true)
    (hemp : (classifyBatch db device_id user_id events).events_to_insert.isEmpty
      = true) :
    sync_events db device_id user_id events =
      (db, ⟨(classifyBatch db device_id user_id events).accepted_count,
            (classifyBatch db device_id user_id events).rejected_count,
            (classifyBatch db device_id user_id events).last_acked_sequence,
            (classifyBatch db device_id user_id events).rejected_event_ids⟩) := by
  unfold sync_events
  rw [hshape]
  simp only [Bool.not_true, Bool.false_eq_true, if_false, hemp, if_true]

/-! ### Lemmas about the weekly-metrics upsert -/

theorem metricsKeyMatch_iff (u : Nat) (ws : Int) (m : WeeklyMetrics) :
    metricsKeyMatch u ws m = true ↔ m.user_id = u ∧ m.week_start = ws := by
  simp [metricsKeyMatch]

theorem metricsKeyMatch_update (u : Nat) (ws : Int) (m : WeeklyMetrics)
    (tw : Nat) (tv : Rat) (ec : Nat) :
    metricsKeyMatch u ws ⟨m.user_id, m.week_start, tw, tv, ec⟩ =
      metricsKeyMatch u ws m := by
  simp [metricsKeyMatch]

theorem upsertMetrics_filter_match (ms : List WeeklyMetrics) (u : Nat)
    (ws : Int) (tw : Nat) (tv : Rat) (ec : Nat)
    (huniq : (ms.filter (metricsKeyMatch u ws)).length ≤ 1) :
    (upsertMetrics ms u ws tw tv ec).filter (metricsKeyMatch u ws) =
      [⟨u, ws, tw, tv, ec⟩] := by
  unfold upsertMetrics
  by_cases hany : ms.any (metricsKeyMatch u ws) = true
  · rw [if_pos hany]
    obtain ⟨m0, hm0, hpm0⟩ := List.any_eq_true.mp hany
    have hx : ∃ x, ms.filter (metricsKeyMatch u ws) = [x] := by
      cases hfl : ms.filter (metricsKeyMatch u ws) with
      | nil =>
        exact absurd (List.mem_filter.mpr ⟨hm0, hpm0⟩) (by rw [hfl]; simp)
      | cons x rest =>
        refine ⟨x, ?_⟩
        rw [hfl] at huniq
        simp only [List.length_cons] at huniq
        have hrest : rest = [] := List.length_eq_zero.mp (by omega)
        rw [hrest]
    obtain ⟨x, hx⟩ := hx
    rw [filter_updateFirst_singleton _ _
      (fun y hy => by rw [metricsKeyMatch_update]; exact hy) ms x hx]
    have hpx : metricsKeyMatch u ws x = true := by
      have := List.mem_filter.mp (by rw [hx]; exact List.mem_cons_self x [])
      exact this.2
    rcases x with ⟨xu, xws, a, b, c⟩
    obtain ⟨h1, h2⟩ := (metricsKeyMatch_iff u ws _).mp hpx
    simp only at h1 h2
    rw [h1, h2]
  · have hany' : ms.any (metricsKeyMatch u ws) = false := by simpa using hany
    rw [if_neg (by simp [hany']), List.filter_append]
    have h1 : ms.filter (metricsKeyMatch u ws) = [] := by
      rw [List.filter_eq_nil_iff]
      intro m hm
      have := List.any_eq_false.mp hany' m hm
      simpa using this
    rw [h1]
    simp [metricsKeyMatch]

theorem upsertMetrics_filter_nonmatch (ms : List WeeklyMetrics) (u : Nat)
    (ws : Int) (tw : Nat) (tv : Rat) (ec : Nat) :
    (upsertMetrics ms u ws tw tv ec).filter
        (fun m => !(metricsKeyMatch u ws m)) =
      ms.filter (fun m => !(metricsKeyMatch u ws m)) := by
  unfold upsertMetrics
  by_cases hany : ms.any (metricsKeyMatch u ws) = true
  · rw [if_pos hany]
    exact filter_updateFirst_not _ _ _
      (fun x hx => ⟨by simp [hx], by simp [metricsKeyMatch_update, hx]⟩) ms
  · have hany' : ms.any (metricsKeyMatch u ws) = false := by simpa using hany
    rw [if_neg (by simp [hany']), List.filter_append]
    simp [metricsKeyMatch]

theorem foldl_add_setVolume (l : List SetProjection) :
    ∀ a : Rat, l.foldl (fun acc s => acc + setVolume s) a =
      a + (l.map setVolume).sum := by
  induction l with
  | nil => intro a; simp
  | cons s t ih =>
    intro a
    rw [List.foldl_cons, ih, List.map_cons, List.sum_cons]
    ring

theorem foldl_insertUniq_exercise (l : List SetProjection) :
    l.foldl (fun acc s => insertUniq acc s.exercise_id) [] =
      distinctList (l.map (fun s => s.exercise_id)) := by
  unfold distinctList
  rw [List.foldl_map]

/-! ### Branch lemmas for the projection step functions -/

theorem applyWorkoutEvent_started_new (ws : List WorkoutProjection)
    (e : Event) (w : Nat) (tS : DateTime)
    (hp : e.payload = .workoutStarted w tS)
    (hno : ws.any (widMatch w) = false) :
    applyWorkoutEvent ws e = ws ++ [⟨w, e.user_id, tS, none, "in_progress"⟩] := by
  unfold applyWorkoutEvent
  rw [hp]
  simp [hno]

theorem applyWorkoutEvent_started_upd (ws : List WorkoutProjection)
    (e : Event) (w : Nat) (tS : DateTime)
    (hp : e.payload = .workoutStarted w tS)
    (hyes : ws.any (widMatch w) = true) :
    applyWorkoutEvent ws e = updateFirst (widMatch w) (fun wr =>
      if wr.status == "completed" then { wr with started_at := tS }
      else { wr with started_at := tS, status := "in_progress",
                     ended_at := none }) ws := by
  unfold applyWorkoutEvent
  rw [hp]
  simp [hyes]

theorem applyWorkoutEvent_ended_new (ws : List WorkoutProjection)
    (e : Event) (w : Nat) (tE : DateTime)
    (hp : e.payload = .workoutEnded w tE)
    (hno : ws.any (widMatch w) = false) :
    applyWorkoutEvent ws e = ws ++ [⟨w, e.user_id, tE, some tE, "completed"⟩] := by
  unfold applyWorkoutEvent
  rw [hp]
  simp [hno]

theorem applyWorkoutEvent_ended_upd (ws : List WorkoutProjection)
    (e : Event) (w : Nat) (tE : DateTime)
    (hp : e.payload = .workoutEnded w tE)
    (hyes : ws.any (widMatch w) = true) :
    applyWorkoutEvent ws e = updateFirst (widMatch w) (fun wr =>
      { wr with ended_at := some tE, status := "completed" }) ws := by
  unfold applyWorkoutEvent
  rw [hp]
  simp [hyes]

theorem applyWorkoutEvent_other (ws : List WorkoutProjection) (e : Event)
    (hp : isWorkoutEvent e = false) : applyWorkoutEvent ws e = ws := by
  unfold applyWorkoutEvent
  unfold isWorkoutEvent at hp
  rcases e with ⟨eid, p, uid, did, seq⟩
  cases p <;> simp_all

theorem replayWorkoutStep_started (ws : List WorkoutProjection) (e : Event)
    (w : Nat) (tS : DateTime) (hp : e.payload = .workoutStarted w tS) :
    replayWorkoutStep ws e =
      (if ws.any (widMatch w) then
        updateFirst (widMatch w)
          (fun _ => ⟨w, e.user_id, tS, none, "in_progress"⟩) ws
      else ws ++ [⟨w, e.user_id, tS, none, "in_progress"⟩]) := by
  unfold replayWorkoutStep
  rw [hp]

theorem replayWorkoutStep_ended (ws : List WorkoutProjection) (e : Event)
    (w : Nat) (tE : DateTime) (hp : e.payload = .workoutEnded w tE) :
    replayWorkoutStep ws e =
      (if ws.any (widMatch w) then
        updateFirst (widMatch w) (fun wr =>
          { wr with ended_at := some tE, status := "completed" }) ws
      else ws) := by
  unfold replayWorkoutStep
  rw [hp]

theorem replayWorkoutStep_other (ws : List WorkoutProjection) (e : Event)
    (hp : isWorkoutEvent e = false) : replayWorkoutStep ws e = ws := by
  unfold replayWorkoutStep
  unfold isWorkoutEvent at hp
  rcases e with ⟨eid, p, uid, did, seq⟩
  cases p <;> simp_all

theorem applySetEvent_set (ws : List WorkoutProjection)
    (ss : List SetProjection) (e : Event) (w eid sid : Nat) (reps : Int)
    (weight : Rat) (t : DateTime)
    (hp : e.payload = .setCompleted w eid sid reps weight t) :
    applySetEvent ws ss e =
      (if ws.any (widMatch w) then
        (if ss.any (sidMatch sid) then
          updateFirst (sidMatch sid) (fun s =>
            { s with workout_id := w, exercise_id := eid, reps := some reps,
                     weight := some weight, completed_at := t }) ss
        else ss ++ [⟨sid, w, eid, some reps, some weight, t⟩])
      else ss) := by
  unfold applySetEvent
  rw [hp]

theorem applySetEvent_other (ws : List WorkoutProjection)
    (ss : List SetProjection) (e : Event) (hp : isSetEvent e = false) :
    applySetEvent ws ss e = ss := by
  unfold applySetEvent
  unfold isSetEvent at hp
  rcases e with ⟨eid, p, uid, did, seq⟩
  cases p <;> simp_all

theorem replaySetStep_set (ws : List WorkoutProjection)
    (ss : List SetProjection) (e : Event) (w eid sid : Nat) (reps : Int)
    (weight : Rat) (t : DateTime)
    (hp : e.payload = .setCompleted w eid sid reps weight t) :
    replaySetStep ws ss e =
      (if ws.any (widMatch w) then
        (if ss.any (sidMatch sid) then
          updateFirst (sidMatch sid)
            (fun _ => ⟨sid, w, eid, some reps, some weight, t⟩) ss
        else ss ++ [⟨sid, w, eid, some reps, some weight, t⟩])
      else ss) := by
  unfold replaySetStep
  rw [hp]

theorem replaySetStep_other (ws : List WorkoutProjection)
    (ss : List SetProjection) (e : Event) (hp : isSetEvent e = false) :
    replaySetStep ws ss e = ss := by
  unfold replaySetStep
  unfold isSetEvent at hp
  rcases e with ⟨eid, p, uid, did, seq⟩
  cases p <;> simp_all

/-! ### C6 — WorkoutEnded before WorkoutStarted in one batch -/

/-- C6 counterexample: syncing the batch [WorkoutEnded w@dtC seq 1,
WorkoutStarted w@dtA seq 2] into an empty store produces one workout row
with status=completed and ended_at=dtC, but its started_at is dtA, the
WorkoutStarted's timestamp — not equal to ended_at as the claim states. -/
theorem c6_counterexample :
    (sync_events emptyDB 5 9 endBeforeStartBatch).1.workouts.length = 1 ∧
    ∀ wrow ∈ (sync_events emptyDB 5 9 endBeforeStartBatch).1.workouts,
      wrow.status = "completed" ∧ wrow.ended_at = some dtC ∧
        wrow.started_at ≠ dtC := by
  decide

/-- C6 (amended): for a batch consisting of a WorkoutEnded (lower
sequence_number) followed by the matching WorkoutStarted, over a database
with no projection row for that workout and fresh, distinct event_ids,
processing the batch produces a workout row with status=completed and
ended_at from the WorkoutEnded — but its started_at equals the
WorkoutStarted's started_at: the later WorkoutStarted of the same batch
overwrites the synthesized `started_at := ended_at` placeholder. -/
theorem c6_end_before_start (db : DB) (device_id user_id w e1 e2 : Nat)
    (s1 s2 : Int) (tS tE : DateTime)
    (hno : db.workouts.any (widMatch w) = false)
    (hf1 : db.events.any (fun ev => ev.event_id == e1) = false)
    (hf2 : db.events.any (fun ev => ev.event_id == e2) = false)
    (hne : e1 ≠ e2) (hseq : s1 < s2) :
    ((sync_events db device_id user_id
        [⟨e1, "WorkoutEnded", rawEnded w tE, s1⟩,
         ⟨e2, "WorkoutStarted", rawStarted w tS, s2⟩]).1).workouts =
      db.workouts ++ [⟨w, user_id, tS, some tE, "completed"⟩] := by
  have hshape : batchShapeOk
      [⟨e1, "WorkoutEnded", rawEnded w tE, s1⟩,
       ⟨e2, "WorkoutStarted", rawStarted w tS, s2⟩] = true := by
    rw [batchShapeOk_iff]
    simp [hseq]
  have hclass : classifyBatch db device_id user_id
      [⟨e1, "WorkoutEnded", rawEnded w tE, s1⟩,
       ⟨e2, "WorkoutStarted", rawStarted w tS, s2⟩] =
      ⟨0, 0, [], none,
       [⟨e1, .workoutEnded w tE, user_id, device_id, s1⟩,
        ⟨e2, .workoutStarted w tS, user_id, device_id, s2⟩]⟩ := by
    unfold classifyBatch
    simp [classifyStep, validate_rawEnded, validate_rawStarted, hf1, hf2]
  rw [sync_events_bulk db device_id user_id _ hshape
      (by rw [hclass]; rfl) (by
        rw [hclass]
        refine ⟨by simp [hne], ?_⟩
        intro ev hev
        rcases List.mem_cons.mp hev with rfl | hev
        · simp [hf1]
        · rcases List.mem_cons.mp hev with rfl | hev
          · simp [hf2]
          · simp at hev)]
  rw [hclass]
  have hsort : sortByLe eventLe
      [⟨e1, Payload.workoutEnded w tE, user_id, device_id, s1⟩,
       ⟨e2, Payload.workoutStarted w tS, user_id, device_id, s2⟩] =
      [⟨e1, Payload.workoutEnded w tE, user_id, device_id, s1⟩,
       ⟨e2, Payload.workoutStarted w tS, user_id, device_id, s2⟩] := by
    apply sortByLe_of_sorted
    simp [eventLe, le_of_lt hseq]
  rw [hsort, update_projections_workouts]
  have hfilter : [⟨e1, Payload.workoutEnded w tE, user_id, device_id, s1⟩,
       (⟨e2, Payload.workoutStarted w tS, user_id, device_id, s2⟩ : Event)].filter
        isWorkoutEvent =
      [⟨e1, Payload.workoutEnded w tE, user_id, device_id, s1⟩,
       ⟨e2, Payload.workoutStarted w tS, user_id, device_id, s2⟩] := by
    simp [isWorkoutEvent]
  rw [hfilter]
  have hstep1 : applyWorkoutEvent db.workouts
      ⟨e1, Payload.workoutEnded w tE, user_id, device_id, s1⟩ =
      db.workouts ++ [⟨w, user_id, tE, some tE, "completed"⟩] :=
    applyWorkoutEvent_ended_new _ _ w tE rfl hno
  have hstep2 : applyWorkoutEvent
      (db.workouts ++ [⟨w, user_id, tE, some tE, "completed"⟩])
      ⟨e2, Payload.workoutStarted w tS, user_id, device_id, s2⟩ =
      db.workouts ++ [⟨w, user_id, tS, some tE, "completed"⟩] := by
    have hany : (db.workouts ++
        [(⟨w, user_id, tE, some tE, "completed"⟩ : WorkoutProjection)]).any
          (widMatch w) = true := by
      rw [List.any_append, hno]
      simp [widMatch]
    rw [applyWorkoutEvent_started_upd _ _ w tS rfl hany,
        updateFirst_append_of_not_any _ _ _ _ hno,
        updateFirst_cons_pos _ _ (by simp [widMatch])]
    rfl
  rw [List.foldl_cons, List.foldl_cons, List.foldl_nil, hstep1, hstep2]

/-- Witness for C6 at the concrete batch `endBeforeStartBatch` over the
empty database. -/
theorem c6_end_before_start_witness :
    ((sync_events emptyDB 5 9 endBeforeStartBatch).1).workouts =
      [⟨9, 9, dtA, some dtC, "completed"⟩] :=
  c6_end_before_start emptyDB 5 9 9 401 402 1 2 dtA dtC rfl rfl rfl
    (by decide) (by decide)

/-! ### C3 — merge called twice -/

/-- C3: merge is not idempotent at the call interface, contradicting the
service's own docstring ("transactional and idempotent - safe to call
multiple times") and the spec. After a successful `merge(a, r)` the
anonymous user row has been deleted, so the second `merge(a, r)` fails the
both-users-exist precondition and raises `ValueError("Anonymous user ... not
found")` instead of returning `merged=false` with zero update counts. -/
theorem c3_merge_second_call_raises :
    ∃ db1 stats, merge_user_data mergeDB 1 2 = .ok (db1, stats) ∧
      stats.merged = true ∧
      merge_user_data db1 1 2 = .error "Anonymous user 1 not found" := by
  exact ⟨_, _, rfl, rfl, rfl⟩

/-! ### C9 — the merge no-op check counts only event rows -/

/-- C9: the idempotency check of `merge_user_data` counts only `events`
rows. For an anonymous user with zero events — even one that still owns
workout projections, weekly metrics or weekly reports — the merge returns
`merged=false` with zero update counts and the database unchanged: nothing
is re-attributed to the real user and the anonymous user is not deleted. -/
theorem c9_merge_counts_only_events (db : DB) (a r : Nat) (ua ur : User)
    (hfa : db.users.find? (fun u => u.user_id == a) = some ua)
    (hanon : ua.is_anonymous = true)
    (hfr : db.users.find? (fun u => u.user_id == r) = some ur)
    (hreal : ur.is_anonymous = false)
    (hnoev : db.events.filter (fun e => e.user_id == a) = [])
    (hdata : db.workouts.any (fun w => w.user_id == a) = true ∨
             db.metrics.any (fun m => m.user_id == a) = true ∨
             db.reports.any (fun x => x.user_id == a) = true) :
    merge_user_data db a r = .ok (db, ⟨false, 0, 0, 0, 0⟩) := by
  unfold merge_user_data
  rw [hfa, hfr]
  simp [hanon, hreal, hnoev]

/-- Witness for C9: an anonymous user with zero events but one workout
projection and one metrics row. -/
theorem c9_merge_counts_only_events_witness :
    merge_user_data zeroEventDB 1 2 = .ok (zeroEventDB, ⟨false, 0, 0, 0, 0⟩) :=
  c9_merge_counts_only_events zeroEventDB 1 2 ⟨1, true⟩ ⟨2, false⟩
    (by decide) rfl (by decide) rfl rfl (Or.inl (by decide))

/-! ### C5 — weekly metrics correctness -/

/-- C5: for every user and Monday `week_start` over a state satisfying the
one-row-per-(user_id, week_start) invariant, `calculate_weekly_metrics`
leaves exactly one (user_id, week_start) weekly-metrics row, holding:
`total_workouts` = the number of the user's completed workouts with
date(started_at) in [week_start, week_start+6], `total_volume` =
Σ reps·weight over all sets of those workouts with null treated as 0, and
`exercises_count` = the number of distinct exercise_id values over those
sets; every other weekly-metrics row is left unchanged; and
`get_week_start` maps every instant to the Monday (ISO weekday 1) of its
week. -/
theorem c5_weekly_metrics (db : DB) (user_id : Nat) (week_start : Int)
    (hmonday : weekdayOf week_start = 0)
    (huniq : (db.metrics.filter (metricsKeyMatch user_id week_start)).length ≤ 1) :
    ((calculate_weekly_metrics db user_id week_start).metrics.filter
        (metricsKeyMatch user_id week_start) =
      [⟨user_id, week_start,
        (weekCompletedWorkouts db user_id week_start).length,
        ((db.sets.filter (fun s => s.workout_id ∈
            (weekCompletedWorkouts db user_id week_start).map
              (fun w => w.workout_id))).map setVolume).sum,
        ((db.sets.filter (fun s => s.workout_id ∈
            (weekCompletedWorkouts db user_id week_start).map
              (fun w => w.workout_id))).map
          (fun s => s.exercise_id)).toFinset.card⟩]) ∧
    ((calculate_weekly_metrics db user_id week_start).metrics.filter
        (fun m => !(metricsKeyMatch user_id week_start m)) =
      db.metrics.filter (fun m => !(metricsKeyMatch user_id week_start m))) ∧
    (∀ dt : DateTime, weekdayOf (get_week_start dt) = 0 ∧
      get_week_start dt ≤ dt.date ∧ dt.date ≤ get_week_start dt + 6) := by
  have hsets : (if ((weekCompletedWorkouts db user_id week_start).map
        (fun w => w.workout_id)).isEmpty then []
      else db.sets.filter (fun s => s.workout_id ∈
        (weekCompletedWorkouts db user_id week_start).map
          (fun w => w.workout_id))) =
      db.sets.filter (fun s => s.workout_id ∈
        (weekCompletedWorkouts db user_id week_start).map
          (fun w => w.workout_id)) := by
    by_cases h : ((weekCompletedWorkouts db user_id week_start).map
        (fun w => w.workout_id)).isEmpty
    · rw [if_pos h]
      rw [List.isEmpty_iff] at h
      rw [h]
      simp
    · rw [if_neg h]
  have hmet : (calculate_weekly_metrics db user_id week_start).metrics =
      upsertMetrics db.metrics user_id week_start
        (weekCompletedWorkouts db user_id week_start).length
        ((if ((weekCompletedWorkouts db user_id week_start).map
            (fun w => w.workout_id)).isEmpty then []
          else db.sets.filter (fun s => s.workout_id ∈
            (weekCompletedWorkouts db user_id week_start).map
              (fun w => w.workout_id))).foldl
          (fun acc s => acc + setVolume s) 0)
        ((if ((weekCompletedWorkouts db user_id week_start).map
            (fun w => w.workout_id)).isEmpty then []
          else db.sets.filter (fun s => s.workout_id ∈
            (weekCompletedWorkouts db user_id week_start).map
              (fun w => w.workout_id))).foldl
          (fun acc s => insertUniq acc s.exercise_id) []).length := rfl
  rw [hsets] at hmet
  rw [foldl_add_setVolume, zero_add, foldl_insertUniq_exercise,
    length_distinctList_eq_card] at hmet
  refine ⟨?_, ?_, ?_⟩
  · rw [hmet]
    exact upsertMetrics_filter_match db.metrics user_id week_start _ _ _ huniq
  · rw [hmet]
    exact upsertMetrics_filter_nonmatch db.metrics user_id week_start _ _ _
  · intro dt
    unfold get_week_start weekdayOf DateTime.date
    omega

/-! ### Frame lemmas for the metrics rebuild and general membership lemmas -/

theorem mem_updateFirst (p : α → Bool) (f : α → α) :
    ∀ {l : List α} {y : α}, y ∈ updateFirst p f l →
      y ∈ l ∨ ∃ x, x ∈ l ∧ p x = true ∧ y = f x := by
  intro l
  induction l with
  | nil => intro y hy; simp [updateFirst] at hy
  | cons a t ih =>
    intro y hy
    by_cases ha : p a = true
    · rw [updateFirst_cons_pos f t ha] at hy
      rcases List.mem_cons.mp hy with rfl | hyt
      · exact Or.inr ⟨a, List.mem_cons_self _ _, ha, rfl⟩
      · exact Or.inl (List.mem_cons_of_mem _ hyt)
    · rw [updateFirst_cons_neg f t (by simpa using ha)] at hy
      rcases List.mem_cons.mp hy with rfl | hyt
      · exact Or.inl (List.mem_cons_self _ _)
      · rcases ih hyt with h | ⟨x, hx, hpx, hyx⟩
        · exact Or.inl (List.mem_cons_of_mem _ h)
        · exact Or.inr ⟨x, List.mem_cons_of_mem _ hx, hpx, hyx⟩

theorem foldl_rwm_users (us : List Nat) :
    ∀ db : DB, (us.foldl rebuild_weekly_metrics db).users = db.users := by
  induction us with
  | nil => intro db; rfl
  | cons u t ih =>
    intro db
    rw [List.foldl_cons, ih, rebuild_weekly_metrics_users]

theorem foldl_rwm_events (us : List Nat) :
    ∀ db : DB, (us.foldl rebuild_weekly_metrics db).events = db.events := by
  induction us with
  | nil => intro db; rfl
  | cons u t ih =>
    intro db
    rw [List.foldl_cons, ih, rebuild_weekly_metrics_events]

theorem foldl_rwm_workouts (us : List Nat) :
    ∀ db : DB, (us.foldl rebuild_weekly_metrics db).workouts = db.workouts := by
  induction us with
  | nil => intro db; rfl
  | cons u t ih =>
    intro db
    rw [List.foldl_cons, ih, rebuild_weekly_metrics_workouts]

theorem foldl_rwm_sets (us : List Nat) :
    ∀ db : DB, (us.foldl rebuild_weekly_metrics db).sets = db.sets := by
  induction us with
  | nil => intro db; rfl
  | cons u t ih =>
    intro db
    rw [List.foldl_cons, ih, rebuild_weekly_metrics_sets]

theorem foldl_rwm_reports (us : List Nat) :
    ∀ db : DB, (us.foldl rebuild_weekly_metrics db).reports = db.reports := by
  induction us with
  | nil => intro db; rfl
  | cons u t ih =>
    intro db
    rw [List.foldl_cons, ih, rebuild_weekly_metrics_reports]

theorem metricsAll_workouts (db : DB) :
    (_rebuild_metrics_for_all_users db).workouts = db.workouts :=
  foldl_rwm_workouts _ db

theorem metricsAll_sets (db : DB) :
    (_rebuild_metrics_for_all_users db).sets = db.sets :=
  foldl_rwm_sets _ db

theorem metricsAll_events (db : DB) :
    (_rebuild_metrics_for_all_users db).events = db.events :=
  foldl_rwm_events _ db

theorem rebuild_projections_workouts (db : DB) :
    (rebuild_projections db).workouts =
      replayWorkouts (sortByLe eventLe db.events) := by
  unfold rebuild_projections _replay_events
  rw [metricsAll_workouts]

theorem rebuild_projections_sets (db : DB) :
    (rebuild_projections db).sets =
      replaySets (replayWorkouts (sortByLe eventLe db.events))
        (sortByLe eventLe db.events) := by
  unfold rebuild_projections _replay_events
  rw [metricsAll_sets]

theorem rebuild_projections_metrics (db : DB) :
    (rebuild_projections db).metrics =
      (_rebuild_metrics_for_all_users (_replay_events
        { db with sets := [], workouts := [] })).metrics := rfl

/-! ### C7 — orphan SetCompleted tolerance and the set→workout invariant -/

theorem any_widMatch_updateFirst (k : Nat) (q : WorkoutProjection → Bool)
    (f : WorkoutProjection → WorkoutProjection)
    (hf : ∀ x, (f x).workout_id = x.workout_id) :
    ∀ l : List WorkoutProjection,
      (updateFirst q f l).any (widMatch k) = l.any (widMatch k) := by
  intro l
  induction l with
  | nil => rfl
  | cons a t ih =>
    by_cases ha : q a = true
    · rw [updateFirst_cons_pos f t ha, List.any_cons, List.any_cons]
      have : widMatch k (f a) = widMatch k a := by
        unfold widMatch
        rw [hf a]
      rw [this]
    · rw [updateFirst_cons_neg f t (by simpa using ha), List.any_cons,
        List.any_cons, ih]

theorem any_widMatch_applyWorkoutEvent (ws : List WorkoutProjection)
    (e : Event) (k : Nat) (h : ws.any (widMatch k) = true) :
    (applyWorkoutEvent ws e).any (widMatch k) = true := by
  rcases e with ⟨eid, p, uid, did, seq⟩
  cases p with
  | workoutStarted w tS =>
    by_cases hany : ws.any (widMatch w) = true
    · rw [applyWorkoutEvent_started_upd _ _ w tS rfl hany,
        any_widMatch_updateFirst k _ _
          (fun x => by by_cases hc : x.status == "completed" <;> simp [hc])]
      exact h
    · rw [applyWorkoutEvent_started_new _ _ w tS rfl (by simpa using hany),
        List.any_append, h, Bool.true_or]
  | workoutEnded w tE =>
    by_cases hany : ws.any (widMatch w) = true
    · rw [applyWorkoutEvent_ended_upd _ _ w tE rfl hany,
        any_widMatch_updateFirst k (widMatch w)
          (fun wr => { wr with ended_at := some tE, status := "completed" })
          (fun x => rfl)]
      exact h
    · rw [applyWorkoutEvent_ended_new _ _ w tE rfl (by simpa using hany),
        List.any_append, h, Bool.true_or]
  | exerciseAdded w eid2 nm =>
    rw [applyWorkoutEvent_other _ _ (by unfold isWorkoutEvent; rfl)]
    exact h
  | setCompleted w eid2 sid reps weight t =>
    rw [applyWorkoutEvent_other _ _ (by unfold isWorkoutEvent; rfl)]
    exact h

theorem any_widMatch_foldl_applyWorkoutEvent (E : List Event) :
    ∀ (ws : List WorkoutProjection) (k : Nat),
      ws.any (widMatch k) = true →
      (E.foldl applyWorkoutEvent ws).any (widMatch k) = true := by
  induction E with
  | nil => intro ws k h; exact h
  | cons e t ih =>
    intro ws k h
    rw [List.foldl_cons]
    exact ih _ k (any_widMatch_applyWorkoutEvent ws e k h)

theorem applySetEvent_fk (W : List WorkoutProjection)
    (ss : List SetProjection) (e : Event) :
    ∀ s ∈ applySetEvent W ss e,
      W.any (widMatch s.workout_id) = true ∨ s ∈ ss := by
  intro s hs
  rcases e with ⟨eid, p, uid, did, seq⟩
  cases p with
  | setCompleted w eid2 sid reps weight t =>
    rw [applySetEvent_set _ _ _ w eid2 sid reps weight t rfl] at hs
    by_cases hany : W.any (widMatch w) = true
    · rw [if_pos hany] at hs
      by_cases hsid : ss.any (sidMatch sid) = true
      · rw [if_pos hsid] at hs
        rcases mem_updateFirst _ _ hs with h | ⟨x, _, _, hyx⟩
        · exact Or.inr h
        · left
          rw [hyx]
          exact hany
      · rw [if_neg hsid] at hs
        rcases List.mem_append.mp hs with h | h
        · exact Or.inr h
        · left
          rcases List.mem_singleton.mp h with rfl
          exact hany
    · rw [if_neg hany] at hs
      exact Or.inr hs
  | workoutStarted w t =>
    rw [applySetEvent_other _ _ _ (by unfold isSetEvent; rfl)] at hs
    exact Or.inr hs
  | workoutEnded w t =>
    rw [applySetEvent_other _ _ _ (by unfold isSetEvent; rfl)] at hs
    exact Or.inr hs
  | exerciseAdded w eid2 nm =>
    rw [applySetEvent_other _ _ _ (by unfold isSetEvent; rfl)] at hs
    exact Or.inr hs

theorem foldl_applySetEvent_fk (W : List WorkoutProjection) (E : List Event) :
    ∀ ss : List SetProjection,
      (∀ s ∈ ss, W.any (widMatch s.workout_id) = true) →
      ∀ s ∈ E.foldl (applySetEvent W) ss,
        W.any (widMatch s.workout_id) = true := by
  induction E with
  | nil => intro ss hss; exact hss
  | cons e t ih =>
    intro ss hss s hs
    rw [List.foldl_cons] at hs
    refine ih _ ?_ s hs
    intro s' hs'
    rcases applySetEvent_fk W ss e s' hs' with h | h
    · exact h
    · exact hss s' h

theorem replaySetStep_fk (W : List WorkoutProjection)
    (ss : List SetProjection) (e : Event) :
    ∀ s ∈ replaySetStep W ss e,
      W.any (widMatch s.workout_id) = true ∨ s ∈ ss := by
  intro s hs
  rcases e with ⟨eid, p, uid, did, seq⟩
  cases p with
  | setCompleted w eid2 sid reps weight t =>
    rw [replaySetStep_set _ _ _ w eid2 sid reps weight t rfl] at hs
    by_cases hany : W.any (widMatch w) = true
    · rw [if_pos hany] at hs
      by_cases hsid : ss.any (sidMatch sid) = true
      · rw [if_pos hsid] at hs
        rcases mem_updateFirst _ _ hs with h | ⟨x, _, _, hyx⟩
        · exact Or.inr h
        · left
          rw [hyx]
          exact hany
      · rw [if_neg hsid] at hs
        rcases List.mem_append.mp hs with h | h
        · exact Or.inr h
        · left
          rcases List.mem_singleton.mp h with rfl
          exact hany
    · rw [if_neg hany] at hs
      exact Or.inr hs
  | workoutStarted w t =>
    rw [replaySetStep_other _ _ _ (by unfold isSetEvent; rfl)] at hs
    exact Or.inr hs
  | workoutEnded w t =>
    rw [replaySetStep_other _ _ _ (by unfold isSetEvent; rfl)] at hs
    exact Or.inr hs
  | exerciseAdded w eid2 nm =>
    rw [replaySetStep_other _ _ _ (by unfold isSetEvent; rfl)] at hs
    exact Or.inr hs

theorem foldl_replaySetStep_fk (W : List WorkoutProjection) (E : List Event) :
    ∀ ss : List SetProjection,
      (∀ s ∈ ss, W.any (widMatch s.workout_id) = true) →
      ∀ s ∈ E.foldl (replaySetStep W) ss,
        W.any (widMatch s.workout_id) = true := by
  induction E with
  | nil => intro ss hss; exact hss
  | cons e t ih =>
    intro ss hss s hs
    rw [List.foldl_cons] at hs
    refine ih _ ?_ s hs
    intro s' hs'
    rcases replaySetStep_fk W ss e s' hs' with h | h
    · exact h
    · exact hss s' h

/-- C7: orphan tolerance. (1) The incremental updater's SetCompleted handler
leaves the set table unchanged (and raises nothing — it is total) when the
referenced workout_id exists neither in the database table nor among the
rows staged this transaction; (2) the rebuilder's replay set pass likewise
skips such an event; (3) consequently, if every stored set row references an
existing workout row, the same holds after `update_projections`, and (4) it
holds unconditionally after `rebuild_projections`. -/
theorem c7_orphan_sets (db : DB) (new_events : List Event) (user_id : Nat)
    (hpre : ∀ s ∈ db.sets, db.workouts.any (widMatch s.workout_id) = true) :
    (∀ (workouts : List WorkoutProjection) (sets : List SetProjection)
        (e : Event) (w eid sid : Nat) (reps : Int) (weight : Rat)
        (t : DateTime), e.payload = .setCompleted w eid sid reps weight t →
        workouts.any (widMatch w) = false →
        applySetEvent workouts sets e = sets) ∧
    (∀ (workouts : List WorkoutProjection) (sets : List SetProjection)
        (e : Event) (w eid sid : Nat) (reps : Int) (weight : Rat)
        (t : DateTime), e.payload = .setCompleted w eid sid reps weight t →
        workouts.any (widMatch w) = false →
        replaySetStep workouts sets e = sets) ∧
    (∀ s ∈ (update_projections db new_events user_id).sets,
        (update_projections db new_events user_id).workouts.any
          (widMatch s.workout_id) = true) ∧
    (∀ db0 : DB, ∀ s ∈ (rebuild_projections db0).sets,
        (rebuild_projections db0).workouts.any (widMatch s.workout_id) = true) := by
  refine ⟨?_, ?_, ?_, ?_⟩
  · intro workouts sets e w eid sid reps weight t hp hno
    rw [applySetEvent_set _ _ _ w eid sid reps weight t hp, if_neg (by simp [hno])]
  · intro workouts sets e w eid sid reps weight t hp hno
    rw [replaySetStep_set _ _ _ w eid sid reps weight t hp, if_neg (by simp [hno])]
  · intro s hs
    rw [update_projections_sets] at hs
    rw [update_projections_workouts]
    refine foldl_applySetEvent_fk _ _ db.sets ?_ s hs
    intro s' hs'
    exact any_widMatch_foldl_applyWorkoutEvent _ db.workouts _ (hpre s' hs')
  · intro db0 s hs
    rw [rebuild_projections_sets] at hs
    rw [rebuild_projections_workouts]
    unfold replaySets at hs
    exact foldl_replaySetStep_fk _ _ [] (by simp) s hs

/-- Witness for C7: the empty database satisfies the set→workout invariant,
and both the updater's and the rebuilder's set step drop a concrete orphaned
SetCompleted event (its workout 8 was never started), leaving the set table
empty. -/
theorem c7_orphan_sets_witness :
    (∀ s ∈ emptyDB.sets, emptyDB.workouts.any (widMatch s.workout_id) = true) ∧
    applySetEvent [] [] ⟨301, .setCompleted 8 3 51 10 100 dtB, 9, 5, 1⟩ = [] ∧
    replaySetStep [] [] ⟨301, .setCompleted 8 3 51 10 100 dtB, 9, 5, 1⟩ = [] :=
  ⟨by simp [emptyDB],
   (c7_orphan_sets emptyDB [] 9 (by simp [emptyDB])).1 [] []
     ⟨301, .setCompleted 8 3 51 10 100 dtB, 9, 5, 1⟩ 8 3 51 10 100 dtB rfl rfl,
   (c7_orphan_sets emptyDB [] 9 (by simp [emptyDB])).2.1 [] []
     ⟨301, .setCompleted 8 3 51 10 100 dtB, 9, 5, 1⟩ 8 3 51 10 100 dtB rfl rfl⟩

/-! ### C10 — rebuild never deletes weekly-metrics rows -/

theorem userCompletedWorkouts_congr (db1 db2 : DB) (u : Nat)
    (h : db1.workouts = db2.workouts) :
    userCompletedWorkouts db1 u = userCompletedWorkouts db2 u := by
  unfold userCompletedWorkouts
  rw [h]

theorem userWeeks_congr (db1 db2 : DB) (u : Nat)
    (h : db1.workouts = db2.workouts) :
    userWeeks db1 u = userWeeks db2 u := by
  unfold userWeeks
  rw [userCompletedWorkouts_congr db1 db2 u h]

theorem weekMetricsValues_congr (db1 db2 : DB) (u : Nat) (w : Int)
    (hw : db1.workouts = db2.workouts) (hs : db1.sets = db2.sets) :
    weekMetricsValues db1 u w = weekMetricsValues db2 u w := by
  unfold weekMetricsValues
  rw [userCompletedWorkouts_congr db1 db2 u hw, hs]

theorem mem_upsertMetrics_of_not (ms : List WeeklyMetrics) (u : Nat)
    (ws : Int) (tw : Nat) (tv : Rat) (ec : Nat) {m : WeeklyMetrics}
    (hm : m ∈ ms) (hkey : metricsKeyMatch u ws m = false) :
    m ∈ upsertMetrics ms u ws tw tv ec := by
  unfold upsertMetrics
  by_cases hany : ms.any (metricsKeyMatch u ws) = true
  · rw [if_pos hany]
    exact mem_updateFirst_of_not _ _ hm hkey
  · rw [if_neg (by simpa using hany)]
    exact List.mem_append_left _ hm

theorem mem_foldl_upsert_of_not (db : DB) (u : Nat) :
    ∀ (weeks : List Int) (ms : List WeeklyMetrics) (m : WeeklyMetrics),
      m ∈ ms → (∀ w ∈ weeks, metricsKeyMatch u w m = false) →
      m ∈ weeks.foldl (fun ms week_start =>
        upsertMetrics ms u week_start
          (weekMetricsValues db u week_start).1
          (weekMetricsValues db u week_start).2.1
          (weekMetricsValues db u week_start).2.2) ms := by
  intro weeks
  induction weeks with
  | nil => intro ms m hm _; exact hm
  | cons w t ih =>
    intro ms m hm hkeys
    rw [List.foldl_cons]
    exact ih _ m
      (mem_upsertMetrics_of_not _ _ _ _ _ _ hm (hkeys w (List.mem_cons_self _ _)))
      (fun w' hw' => hkeys w' (List.mem_cons_of_mem _ hw'))

theorem mem_rwmFold_of_not (db : DB) (u : Nat) (ms : List WeeklyMetrics)
    (m : WeeklyMetrics) (hm : m ∈ ms)
    (hkeys : ∀ w ∈ userWeeks db u, metricsKeyMatch u w m = false) :
    m ∈ rwmFold db u ms := by
  unfold rwmFold
  exact mem_foldl_upsert_of_not db u (userWeeks db u) ms m hm hkeys

theorem mem_metricsAll_of_not (db : DB) (m : WeeklyMetrics)
    (hm : m ∈ db.metrics)
    (hkeys : ∀ u, ∀ w ∈ userWeeks db u, metricsKeyMatch u w m = false) :
    m ∈ (_rebuild_metrics_for_all_users db).metrics := by
  unfold _rebuild_metrics_for_all_users
  have hgen : ∀ (us : List Nat) (db' : DB), db'.workouts = db.workouts →
      m ∈ db'.metrics → m ∈ (us.foldl rebuild_weekly_metrics db').metrics := by
    intro us
    induction us with
    | nil => intro db' _ hm'; exact hm'
    | cons u t ih =>
      intro db' hw hm'
      rw [List.foldl_cons]
      refine ih (rebuild_weekly_metrics db' u) ?_ ?_
      · rw [rebuild_weekly_metrics_workouts, hw]
      · show m ∈ rwmFold db' u db'.metrics
        refine mem_rwmFold_of_not db' u db'.metrics m hm' ?_
        rw [userWeeks_congr db' db u hw]
        exact hkeys u
  exact hgen _ db rfl hm

/-- C10: `rebuild_projections` truncates only the set and workout
projections; its metrics pass only upserts. Every pre-existing
weekly_metrics row whose (user_id, week_start) matches no completed workout
of the replayed log — including rows of users with no workouts at all —
survives the rebuild with its old values unchanged. -/
theorem c10_rebuild_preserves_metrics (db : DB) (m : WeeklyMetrics)
    (hm : m ∈ db.metrics)
    (hnone : ∀ w ∈ replayWorkouts (sortByLe eventLe db.events),
      ¬ (w.user_id = m.user_id ∧ w.status = "completed" ∧
         get_week_start w.started_at = m.week_start)) :
    m ∈ (rebuild_projections db).metrics := by
  rw [rebuild_projections_metrics]
  refine mem_metricsAll_of_not _ m hm ?_
  intro u w hw
  rcases Bool.eq_false_or_eq_true (metricsKeyMatch u w m) with h | h
  · exfalso
    obtain ⟨h1, h2⟩ := (metricsKeyMatch_iff u w m).mp h
    unfold userWeeks at hw
    rw [mem_distinctList] at hw
    obtain ⟨wk, hwk, hweek⟩ := List.mem_map.mp hw
    have hwk2 : wk ∈ (_replay_events { db with sets := [], workouts := []
        }).workouts.filter (fun w0 => w0.user_id == u &&
          w0.status == "completed") := by
      unfold userCompletedWorkouts at hwk
      exact ((sortByLe_perm workoutLe _).mem_iff).mp hwk
    rw [List.mem_filter] at hwk2
    have hwk3 : wk ∈ replayWorkouts (sortByLe eventLe db.events) := hwk2.1
    have hprops := hwk2.2
    simp only [Bool.and_eq_true, beq_iff_eq] at hprops
    exact hnone wk hwk3
      ⟨hprops.1.trans h1.symm, hprops.2, hweek.trans h2.symm⟩
  · exact h

/-- Witness for C10: `mergeDB`'s metrics row (1, 737997, 1, 100, 1) matches
no completed workout of the replayed log (the only replayed workout is
in_progress) and survives the rebuild unchanged. -/
theorem c10_rebuild_preserves_metrics_witness :
    (⟨1, 737997, 1, 100, 1⟩ : WeeklyMetrics) ∈
      (rebuild_projections mergeDB).metrics :=
  c10_rebuild_preserves_metrics mergeDB ⟨1, 737997, 1, 100, 1⟩
    (by decide) (by decide)

/-- Witness for C5 over `c5DB` (one completed in-week workout with sets
10×100 and null×50, one in-progress workout, another user's workout): the
(1, 737997) row becomes 1 workout, volume 1000, 2 distinct exercises, and
the foreign row of user 2's week is untouched. -/
theorem c5_weekly_metrics_witness :
    (calculate_weekly_metrics c5DB 1 737997).metrics.filter
        (metricsKeyMatch 1 737997) = [⟨1, 737997, 1, 1000, 2⟩] := by
  have h := (c5_weekly_metrics c5DB 1 737997 (by decide) (by decide)).1
  rw [h]
  norm_num [weekCompletedWorkouts, c5DB, dtA, dtB, dtC, DateTime.date, setVolume]
  decide

/-! ### C8 — full rebuild is idempotent and deterministic -/

theorem DB_ext (a b : DB) (h1 : a.users = b.users) (h2 : a.events = b.events)
    (h3 : a.workouts = b.workouts) (h4 : a.sets = b.sets)
    (h5 : a.metrics = b.metrics) (h6 : a.reports = b.reports) : a = b := by
  cases a
  cases b
  simp only at h1 h2 h3 h4 h5 h6
  rw [h1, h2, h3, h4, h5, h6]

theorem rebuild_projections_users (db : DB) :
    (rebuild_projections db).users = db.users := by
  unfold rebuild_projections _rebuild_metrics_for_all_users
  rw [foldl_rwm_users]
  rfl

theorem rebuild_projections_events (db : DB) :
    (rebuild_projections db).events = db.events := by
  unfold rebuild_projections _rebuild_metrics_for_all_users
  rw [foldl_rwm_events]
  rfl

theorem rebuild_projections_reports (db : DB) :
    (rebuild_projections db).reports = db.reports := by
  unfold rebuild_projections _rebuild_metrics_for_all_users
  rw [foldl_rwm_reports]
  rfl

theorem find?_append_single (p : α → Bool) (x : α) (hx : p x = false) :
    ∀ l : List α, (l ++ [x]).find? p = l.find? p := by
  intro l
  induction l with
  | nil =>
    simp only [List.nil_append]
    rw [List.find?_cons_of_neg _ (by simp [hx])]
  | cons a t ih =>
    by_cases ha : p a = true
    · rw [List.cons_append, List.find?_cons_of_pos _ ha,
        List.find?_cons_of_pos _ ha]
    · rw [List.cons_append, List.find?_cons_of_neg _ (by simpa using ha),
        List.find?_cons_of_neg _ (by simpa using ha), ih]

theorem find?_append_right (p : α → Bool) :
    ∀ l l' : List α, l.find? p = none → (l ++ l').find? p = l'.find? p := by
  intro l
  induction l with
  | nil => intro l' _; rfl
  | cons a t ih =>
    intro l' h
    by_cases ha : p a = true
    · rw [List.find?_cons_of_pos _ ha] at h
      cases h
    · rw [List.find?_cons_of_neg _ (by simpa using ha)] at h
      rw [List.cons_append, List.find?_cons_of_neg _ (by simpa using ha), ih _ h]

theorem any_of_find? (p : α → Bool) {l : List α} {x : α}
    (h : l.find? p = some x) : l.any p = true := by
  rw [List.any_eq_true]
  exact ⟨x, List.mem_of_find?_eq_some h, List.find?_some h⟩

theorem find?_updateFirst_self (p : α → Bool) (f : α → α)
    (hpres : ∀ x, p x = true → p (f x) = true) :
    ∀ (l : List α) (x : α), l.find? p = some x →
      (updateFirst p f l).find? p = some (f x) := by
  intro l
  induction l with
  | nil => intro x hx; cases hx
  | cons a t ih =>
    intro x hx
    by_cases ha : p a = true
    · rw [List.find?_cons_of_pos _ ha] at hx
      cases hx
      rw [updateFirst_cons_pos f t ha,
        List.find?_cons_of_pos _ (hpres a ha)]
    · have ha' : p a = false := by simpa using ha
      rw [List.find?_cons_of_neg _ (by simp [ha'])] at hx
      rw [updateFirst_cons_neg f t ha',
        List.find?_cons_of_neg _ (by simp [ha']), ih x hx]

theorem find?_upsertMetrics_self (ms : List WeeklyMetrics) (u : Nat)
    (ws : Int) (tw : Nat) (tv : Rat) (ec : Nat) :
    (upsertMetrics ms u ws tw tv ec).find? (metricsKeyMatch u ws) =
      some ⟨u, ws, tw, tv, ec⟩ := by
  unfold upsertMetrics
  by_cases hany : ms.any (metricsKeyMatch u ws) = true
  · rw [if_pos hany]
    obtain ⟨m0, hm0, hpm0⟩ := List.any_eq_true.mp hany
    cases hfind : ms.find? (metricsKeyMatch u ws) with
    | none =>
      rw [List.find?_eq_none] at hfind
      exact absurd hpm0 (by simpa using hfind m0 hm0)
    | some x =>
      rw [find?_updateFirst_self _ _
        (fun y hy => by rw [metricsKeyMatch_update]; exact hy) ms x hfind]
      have hpx := List.find?_some hfind
      obtain ⟨h1, h2⟩ := (metricsKeyMatch_iff u ws x).mp hpx
      show some (⟨x.user_id, x.week_start, tw, tv, ec⟩ : WeeklyMetrics) = _
      rw [h1, h2]
  · have hany' : ms.any (metricsKeyMatch u ws) = false := by simpa using hany
    rw [if_neg (by simp [hany'])]
    rw [find?_append_right _ ms _ (by
      rw [List.find?_eq_none]
      intro m hm
      simp [List.any_eq_false.mp hany' m hm])]
    rw [List.find?_cons_of_pos _ (by simp [metricsKeyMatch])]

theorem find?_upsertMetrics_other (ms : List WeeklyMetrics) (u u' : Nat)
    (ws ws' : Int) (tw : Nat) (tv : Rat) (ec : Nat)
    (hne : ¬ (u = u' ∧ ws = ws')) :
    (upsertMetrics ms u ws tw tv ec).find? (metricsKeyMatch u' ws') =
      ms.find? (metricsKeyMatch u' ws') := by
  unfold upsertMetrics
  have hbase : ∀ x : WeeklyMetrics, metricsKeyMatch u ws x = true →
      metricsKeyMatch u' ws' x = false := by
    intro x hx
    obtain ⟨h1, h2⟩ := (metricsKeyMatch_iff u ws x).mp hx
    rcases Bool.eq_false_or_eq_true (metricsKeyMatch u' ws' x) with h | h
    · obtain ⟨h1', h2'⟩ := (metricsKeyMatch_iff u' ws' x).mp h
      exact absurd ⟨h1.symm.trans h1', h2.symm.trans h2'⟩ hne
    · exact h
  have hkey : ∀ x : WeeklyMetrics, metricsKeyMatch u ws x = true →
      metricsKeyMatch u' ws' x = false ∧
      metricsKeyMatch u' ws'
        (⟨x.user_id, x.week_start, tw, tv, ec⟩ : WeeklyMetrics) = false := by
    intro x hx
    refine ⟨hbase x hx, ?_⟩
    rw [metricsKeyMatch_update]
    exact hbase x hx
  by_cases hany : ms.any (metricsKeyMatch u ws) = true
  · rw [if_pos hany]
    exact find?_updateFirst_of_key _ _ _ hkey ms
  · rw [if_neg (by simpa using hany)]
    exact find?_append_single _ _ (by
      rcases Bool.eq_false_or_eq_true
          (metricsKeyMatch u' ws' ⟨u, ws, tw, tv, ec⟩) with h | h
      · obtain ⟨h1', h2'⟩ := (metricsKeyMatch_iff u' ws' _).mp h
        exact absurd ⟨h1', h2'⟩ hne
      · exact h) ms

theorem upsertMetrics_self_eq (ms : List WeeklyMetrics) (u : Nat) (ws : Int)
    (tw : Nat) (tv : Rat) (ec : Nat)
    (h : ms.find? (metricsKeyMatch u ws) = some ⟨u, ws, tw, tv, ec⟩) :
    upsertMetrics ms u ws tw tv ec = ms := by
  unfold upsertMetrics
  rw [if_pos (any_of_find? _ h)]
  exact updateFirst_eq_self _ _ ms _ h rfl

theorem rwmFold_congr (db1 db2 : DB) (u : Nat)
    (hw : db1.workouts = db2.workouts) (hs : db1.sets = db2.sets)
    (ms : List WeeklyMetrics) : rwmFold db1 u ms = rwmFold db2 u ms := by
  unfold rwmFold
  rw [userWeeks_congr db1 db2 u hw]
  have hfun : (fun (ms0 : List WeeklyMetrics) (week_start : Int) =>
      upsertMetrics ms0 u week_start
        (weekMetricsValues db1 u week_start).1
        (weekMetricsValues db1 u week_start).2.1
        (weekMetricsValues db1 u week_start).2.2) =
      (fun (ms0 : List WeeklyMetrics) (week_start : Int) =>
        upsertMetrics ms0 u week_start
          (weekMetricsValues db2 u week_start).1
          (weekMetricsValues db2 u week_start).2.1
          (weekMetricsValues db2 u week_start).2.2) := by
    funext ms0 w0
    rw [weekMetricsValues_congr db1 db2 u w0 hw hs]
  rw [hfun]

theorem foldl_rebuild_metrics_eq (db0 : DB) :
    ∀ (us : List Nat) (db' : DB), db'.workouts = db0.workouts →
      db'.sets = db0.sets →
      (us.foldl rebuild_weekly_metrics db').metrics =
        us.foldl (fun ms u => rwmFold db0 u ms) db'.metrics := by
  intro us
  induction us with
  | nil => intro db' _ _; rfl
  | cons u t ih =>
    intro db' hw hs
    rw [List.foldl_cons, List.foldl_cons,
      ih (rebuild_weekly_metrics db' u)
        (by rw [rebuild_weekly_metrics_workouts, hw])
        (by rw [rebuild_weekly_metrics_sets, hs])]
    congr 1
    show rwmFold db' u db'.metrics = rwmFold db0 u db'.metrics
    exact rwmFold_congr db' db0 u hw hs db'.metrics

theorem find?_weeksFold_other (db : DB) (u u' : Nat) (ws' : Int) :
    ∀ (weeks : List Int) (ms : List WeeklyMetrics),
      (∀ w ∈ weeks, ¬ (u = u' ∧ w = ws')) →
      (weeks.foldl (fun ms0 w => upsertMetrics ms0 u w
          (weekMetricsValues db u w).1 (weekMetricsValues db u w).2.1
          (weekMetricsValues db u w).2.2) ms).find?
        (metricsKeyMatch u' ws') =
      ms.find? (metricsKeyMatch u' ws') := by
  intro weeks
  induction weeks with
  | nil => intro ms _; rfl
  | cons w0 t ih =>
    intro ms h
    rw [List.foldl_cons, ih _ (fun w hw => h w (List.mem_cons_of_mem _ hw)),
      find?_upsertMetrics_other _ _ _ _ _ _ _ _ (h w0 (List.mem_cons_self _ _))]

theorem find?_weeksFold_self (db : DB) (u : Nat) :
    ∀ (weeks : List Int), weeks.Nodup → ∀ (ms : List WeeklyMetrics),
      ∀ w ∈ weeks,
      (weeks.foldl (fun ms0 w1 => upsertMetrics ms0 u w1
          (weekMetricsValues db u w1).1 (weekMetricsValues db u w1).2.1
          (weekMetricsValues db u w1).2.2) ms).find?
        (metricsKeyMatch u w) = some (weekMetricsRow db u w) := by
  intro weeks
  induction weeks with
  | nil => intro _ ms w hw; simp at hw
  | cons w0 t ih =>
    intro hnd ms w hw
    rw [List.nodup_cons] at hnd
    rw [List.foldl_cons]
    rcases List.mem_cons.mp hw with rfl | hwt
    · rw [find?_weeksFold_other db u u w t _
        (fun w' hw' hc => hnd.1 (hc.2 ▸ hw'))]
      exact find?_upsertMetrics_self ms u w _ _ _
    · exact ih hnd.2 _ w hwt

theorem find?_userFold_other (db : DB) (u' : Nat) (ws' : Int) :
    ∀ (us : List Nat) (ms : List WeeklyMetrics), (∀ u ∈ us, u ≠ u') →
      (us.foldl (fun ms0 u => rwmFold db u ms0) ms).find?
        (metricsKeyMatch u' ws') = ms.find? (metricsKeyMatch u' ws') := by
  intro us
  induction us with
  | nil => intro ms _; rfl
  | cons u0 t ih =>
    intro ms h
    rw [List.foldl_cons, ih _ (fun u hu => h u (List.mem_cons_of_mem _ hu))]
    show (rwmFold db u0 ms).find? (metricsKeyMatch u' ws') = _
    unfold rwmFold
    exact find?_weeksFold_other db u0 u' ws' _ ms
      (fun w _ hc => h u0 (List.mem_cons_self _ _) hc.1)

theorem find?_userFold_self (db : DB) :
    ∀ (us : List Nat), us.Nodup → ∀ (ms : List WeeklyMetrics),
      ∀ u ∈ us, ∀ w ∈ userWeeks db u,
      ((us.foldl (fun ms0 u1 => rwmFold db u1 ms0) ms).find?
        (metricsKeyMatch u w)) = some (weekMetricsRow db u w) := by
  intro us
  induction us with
  | nil => intro _ ms u hu; simp at hu
  | cons u0 t ih =>
    intro hnd ms u hu w hw
    rw [List.nodup_cons] at hnd
    rw [List.foldl_cons]
    rcases List.mem_cons.mp hu with rfl | hut
    · rw [find?_userFold_other db u w t _ (fun u'' hu'' he => hnd.1 (he ▸ hu''))]
      show (rwmFold db u ms).find? (metricsKeyMatch u w) = _
      unfold rwmFold
      exact find?_weeksFold_self db u (userWeeks db u) (nodup_distinctList _)
        ms w hw
    · exact ih hnd.2 _ u hut w hw

theorem weeksFold_eq_self (db : DB) (u : Nat) :
    ∀ (weeks : List Int) (ms : List WeeklyMetrics),
      (∀ w ∈ weeks, ms.find? (metricsKeyMatch u w) =
        some (weekMetricsRow db u w)) →
      weeks.foldl (fun ms0 w1 => upsertMetrics ms0 u w1
        (weekMetricsValues db u w1).1 (weekMetricsValues db u w1).2.1
        (weekMetricsValues db u w1).2.2) ms = ms := by
  intro weeks
  induction weeks with
  | nil => intro ms _; rfl
  | cons w0 t ih =>
    intro ms h
    rw [List.foldl_cons,
      upsertMetrics_self_eq ms u w0 _ _ _ (h w0 (List.mem_cons_self _ _)),
      ih ms (fun w hw => h w (List.mem_cons_of_mem _ hw))]

theorem userFold_eq_self (db : DB) :
    ∀ (us : List Nat) (ms : List WeeklyMetrics),
      (∀ u ∈ us, ∀ w ∈ userWeeks db u, ms.find? (metricsKeyMatch u w) =
        some (weekMetricsRow db u w)) →
      us.foldl (fun ms0 u1 => rwmFold db u1 ms0) ms = ms := by
  intro us
  induction us with
  | nil => intro ms _; rfl
  | cons u0 t ih =>
    intro ms h
    rw [List.foldl_cons]
    have hu0 : rwmFold db u0 ms = ms := by
      unfold rwmFold
      exact weeksFold_eq_self db u0 (userWeeks db u0) ms
        (h u0 (List.mem_cons_self _ _))
    rw [hu0, ih ms (fun u hu => h u (List.mem_cons_of_mem _ hu))]

theorem metricsAll_metrics_eq (db0 dbX : DB)
    (hw : dbX.workouts = db0.workouts) (hs : dbX.sets = db0.sets) :
    (_rebuild_metrics_for_all_users dbX).metrics =
      (distinctList (dbX.workouts.map (fun w => w.user_id))).foldl
        (fun ms0 u1 => rwmFold db0 u1 ms0) dbX.metrics := by
  unfold _rebuild_metrics_for_all_users
  exact foldl_rebuild_metrics_eq db0 _ dbX hw hs

/-- C8: full rebuild is idempotent and deterministic — running
`rebuild_projections` twice in a row yields exactly the same
workout-projection, set-projection and weekly-metrics state (indeed the
same database value) as running it once. -/
theorem c8_rebuild_idempotent (db : DB) :
    rebuild_projections (rebuild_projections db) = rebuild_projections db := by
  obtain ⟨R, hR⟩ : ∃ R, rebuild_projections db = R := ⟨_, rfl⟩
  rw [hR]
  have he : R.events = db.events := by
    rw [← hR]
    exact rebuild_projections_events db
  have hw : R.workouts = replayWorkouts (sortByLe eventLe db.events) := by
    rw [← hR]
    exact rebuild_projections_workouts db
  have hs : R.sets = replaySets (replayWorkouts (sortByLe eventLe db.events))
      (sortByLe eventLe db.events) := by
    rw [← hR]
    exact rebuild_projections_sets db
  have hw2 : (_replay_events { R with sets := [], workouts := [] }).workouts =
      (_replay_events { db with sets := [], workouts := [] }).workouts := by
    show replayWorkouts (sortByLe eventLe R.events) =
      replayWorkouts (sortByLe eventLe db.events)
    rw [he]
  have hs2 : (_replay_events { R with sets := [], workouts := [] }).sets =
      (_replay_events { db with sets := [], workouts := [] }).sets := by
    show replaySets (replayWorkouts (sortByLe eventLe R.events))
        (sortByLe eventLe R.events) =
      replaySets (replayWorkouts (sortByLe eventLe db.events))
        (sortByLe eventLe db.events)
    rw [he]
  have hMR : R.metrics =
      (distinctList ((_replay_events { db with sets := [], workouts := []
        }).workouts.map (fun w => w.user_id))).foldl
        (fun ms0 u1 => rwmFold
          (_replay_events { db with sets := [], workouts := [] }) u1 ms0)
        (_replay_events { db with sets := [], workouts := [] }).metrics := by
    rw [← hR, rebuild_projections_metrics db,
      metricsAll_metrics_eq
        (_replay_events { db with sets := [], workouts := [] }) _ rfl rfl]
  apply DB_ext
  · exact rebuild_projections_users R
  · rw [rebuild_projections_events, he]
  · rw [rebuild_projections_workouts, he, ← hw]
  · rw [rebuild_projections_sets, he, ← hs]
  · -- weekly metrics: the second pass recomputes identical values and
    -- every upsert finds exactly the row the first pass wrote
    rw [rebuild_projections_metrics R,
      metricsAll_metrics_eq
        (_replay_events { db with sets := [], workouts := [] }) _ hw2 hs2, hw2,
      show (_replay_events { R with sets := [], workouts := [] }).metrics =
        R.metrics from rfl, hMR]
    apply userFold_eq_self
    intro u hu w hwk
    exact find?_userFold_self _ _ (nodup_distinctList _) _ u hu w hwk
  · exact rebuild_projections_reports R

/-! ### C1 — ingestion idempotency -/

theorem classifyStep_invalid (db : DB) (d u : Nat) (st : LoopState)
    (e : InEvent) (msg : String)
    (hv : validate_event_payload e.event_type e.payload = .error msg) :
    classifyStep db d u st e =
      { st with rejected_count := st.rejected_count + 1,
                rejected_event_ids := st.rejected_event_ids ++ [e.event_id] } := by
  unfold classifyStep
  rw [hv]

theorem classifyStep_dup (db : DB) (d u : Nat) (st : LoopState) (e : InEvent)
    (p : Payload) (hv : validate_event_payload e.event_type e.payload = .ok p)
    (hex : db.events.any (fun ev => ev.event_id == e.event_id) = true) :
    classifyStep db d u st e =
      { st with accepted_count := st.accepted_count + 1,
                last_acked_sequence :=
                  bumpAck st.last_acked_sequence e.sequence_number } := by
  unfold classifyStep
  rw [hv]
  simp [hex]

theorem classifyStep_stage (db : DB) (d u : Nat) (st : LoopState) (e : InEvent)
    (p : Payload) (hv : validate_event_payload e.event_type e.payload = .ok p)
    (hex : db.events.any (fun ev => ev.event_id == e.event_id) = false) :
    classifyStep db d u st e =
      { st with events_to_insert := st.events_to_insert ++
          [⟨e.event_id, p, u, d, e.sequence_number⟩] } := by
  unfold classifyStep
  rw [hv]
  simp [hex]

theorem classifyStep_staged_grows (db : DB) (d u : Nat) (st : LoopState)
    (e : InEvent) : ∃ tail, (classifyStep db d u st e).events_to_insert =
      st.events_to_insert ++ tail := by
  cases hv : validate_event_payload e.event_type e.payload with
  | error msg =>
    exact ⟨[], by rw [classifyStep_invalid db d u st e msg hv]; simp⟩
  | ok p =>
    by_cases hex : db.events.any (fun ev => ev.event_id == e.event_id) = true
    · exact ⟨[], by rw [classifyStep_dup db d u st e p hv hex]; simp⟩
    · exact ⟨[⟨e.event_id, p, u, d, e.sequence_number⟩],
        by rw [classifyStep_stage db d u st e p hv (by simpa using hex)]⟩

theorem foldl_classify_staged_grows (db : DB) (d u : Nat) :
    ∀ (events : List InEvent) (st0 : LoopState), ∃ tail,
      (events.foldl (classifyStep db d u) st0).events_to_insert =
        st0.events_to_insert ++ tail := by
  intro events
  induction events with
  | nil => intro st0; exact ⟨[], by simp⟩
  | cons e t ih =>
    intro st0
    rw [List.foldl_cons]
    obtain ⟨tail1, h1⟩ := classifyStep_staged_grows db d u st0 e
    obtain ⟨tail2, h2⟩ := ih (classifyStep db d u st0 e)
    exact ⟨tail1 ++ tail2, by rw [h2, h1, List.append_assoc]⟩

theorem classify_covers (db : DB) (d u : Nat) :
    ∀ (events : List InEvent) (st0 : LoopState),
      (∀ e ∈ events, ∃ p,
        validate_event_payload e.event_type e.payload = .ok p) →
      ∀ e ∈ events,
        db.events.any (fun ev => ev.event_id == e.event_id) = true ∨
        ∃ ev ∈ (events.foldl (classifyStep db d u) st0).events_to_insert,
          ev.event_id = e.event_id := by
  intro events
  induction events with
  | nil => intro st0 _ e he; simp at he
  | cons e0 t ih =>
    intro st0 hval e he
    rcases List.mem_cons.mp he with rfl | het
    · obtain ⟨p, hv⟩ := hval e (List.mem_cons_self _ _)
      by_cases hex : db.events.any (fun ev => ev.event_id == e.event_id) = true
      · exact Or.inl hex
      · right
        rw [List.foldl_cons,
          classifyStep_stage db d u st0 e p hv (by simpa using hex)]
        obtain ⟨tail, htail⟩ := foldl_classify_staged_grows db d u t
          { st0 with events_to_insert := st0.events_to_insert ++
              [⟨e.event_id, p, u, d, e.sequence_number⟩] }
        refine ⟨⟨e.event_id, p, u, d, e.sequence_number⟩, ?_, rfl⟩
        rw [htail]
        simp
    · rcases ih (classifyStep db d u st0 e0)
        (fun e' he' => hval e' (List.mem_cons_of_mem _ he')) e het with h | h
      · exact Or.inl h
      · right
        rw [List.foldl_cons]
        exact h

theorem classify_all_dup (db : DB) (d u : Nat) :
    ∀ (events : List InEvent) (st0 : LoopState),
      (∀ e ∈ events,
        (∃ p, validate_event_payload e.event_type e.payload = .ok p) ∧
        db.events.any (fun ev => ev.event_id == e.event_id) = true) →
      events.foldl (classifyStep db d u) st0 =
        { st0 with
          accepted_count := st0.accepted_count + events.length,
          last_acked_sequence := (events.map
            (fun e => e.sequence_number)).foldl bumpAck
              st0.last_acked_sequence } := by
  intro events
  induction events with
  | nil =>
    intro st0 _
    simp
  | cons e t ih =>
    intro st0 h
    obtain ⟨⟨p, hv⟩, hex⟩ := h e (List.mem_cons_self _ _)
    rw [List.foldl_cons, classifyStep_dup db d u st0 e p hv hex,
      ih _ (fun e' he' => h e' (List.mem_cons_of_mem _ he'))]
    simp only [List.length_cons, List.map_cons, List.foldl_cons]
    congr 1
    omega

theorem insertIndividually_events_grow :
    ∀ (evs : List Event) (d0 : DB) (n : Nat) (a : Option Int), ∃ extra,
      (insertIndividually (d0, n, a) evs).1.events = d0.events ++ extra := by
  intro evs
  induction evs with
  | nil => intro d0 n a; exact ⟨[], by simp [insertIndividually]⟩
  | cons ev t ih =>
    intro d0 n a
    unfold insertIndividually
    rw [List.foldl_cons]
    by_cases hex : d0.events.any (fun e0 => e0.event_id == ev.event_id) = true
    · rw [if_pos hex]
      exact ih d0 (n + 1) (bumpAck a ev.sequence_number)
    · rw [if_neg (by simpa using hex)]
      obtain ⟨extra, hextra⟩ := ih { d0 with events := d0.events ++ [ev] }
        (n + 1) (bumpAck a ev.sequence_number)
      refine ⟨[ev] ++ extra, ?_⟩
      show (insertIndividually ({ d0 with events := d0.events ++ [ev] },
        n + 1, bumpAck a ev.sequence_number) t).1.events =
        d0.events ++ ([ev] ++ extra)
      rw [hextra]
      simp

theorem insertIndividually_stores :
    ∀ (evs : List Event) (d0 : DB) (n : Nat) (a : Option Int), ∀ ev ∈ evs,
      (insertIndividually (d0, n, a) evs).1.events.any
        (fun e0 => e0.event_id == ev.event_id) = true := by
  intro evs
  induction evs with
  | nil => intro d0 n a ev hev; simp at hev
  | cons ev0 t ih =>
    intro d0 n a ev hev
    unfold insertIndividually
    rw [List.foldl_cons]
    have hstep : ∀ (d1 : DB) (n1 : Nat) (a1 : Option Int),
        d1.events.any (fun e0 => e0.event_id == ev.event_id) = true →
        (t.foldl (fun acc ev1 =>
          if acc.1.events.any (fun e0 => e0.event_id == ev1.event_id) then
            (acc.1, acc.2.1 + 1, bumpAck acc.2.2 ev1.sequence_number)
          else
            ({ acc.1 with events := acc.1.events ++ [ev1] }, acc.2.1 + 1,
             bumpAck acc.2.2 ev1.sequence_number)) (d1, n1, a1)).1.events.any
          (fun e0 => e0.event_id == ev.event_id) = true := by
      intro d1 n1 a1 h1
      obtain ⟨extra, hextra⟩ := insertIndividually_events_grow t d1 n1 a1
      rw [show (t.foldl _ (d1, n1, a1)) =
        insertIndividually (d1, n1, a1) t from rfl, hextra, List.any_append, h1]
      rfl
    rcases List.mem_cons.mp hev with rfl | hevt
    · by_cases hex : d0.events.any (fun e0 => e0.event_id == ev.event_id) = true
      · rw [if_pos hex]
        exact hstep d0 (n + 1) (bumpAck a ev.sequence_number) hex
      · rw [if_neg (by simpa using hex)]
        refine hstep _ (n + 1) (bumpAck a ev.sequence_number) ?_
        simp
    · by_cases hex : d0.events.any (fun e0 => e0.event_id == ev0.event_id) = true
      · rw [if_pos hex]
        exact ih d0 (n + 1) (bumpAck a ev0.sequence_number) ev hevt
      · rw [if_neg (by simpa using hex)]
        exact ih _ (n + 1) (bumpAck a ev0.sequence_number) ev hevt

/-- Evaluation of `sync_events` on its fallback path (an in-batch duplicate
event_id made the bulk insert raise an IntegrityError). -/
theorem sync_events_fallback (db : DB) (device_id user_id : Nat)
    (events : List InEvent)
    (hshape : batchShapeOk events = true)
    (hne : (classifyBatch db device_id user_id events).events_to_insert.isEmpty
      = false)
    (hnok : ¬ (((classifyBatch db device_id user_id
        events).events_to_insert.map (fun e => e.event_id)).Nodup ∧
      ∀ ev ∈ (classifyBatch db device_id user_id events).events_to_insert,
        ¬ db.events.any (fun e0 => e0.event_id == ev.event_id) = true)) :
    sync_events db device_id user_id events =
      ((insertIndividually (db,
          (classifyBatch db device_id user_id events).accepted_count,
          (classifyBatch db device_id user_id events).last_acked_sequence)
          (classifyBatch db device_id user_id events).events_to_insert).1,
       ⟨(insertIndividually (db,
          (classifyBatch db device_id user_id events).accepted_count,
          (classifyBatch db device_id user_id events).last_acked_sequence)
          (classifyBatch db device_id user_id events).events_to_insert).2.1,
        (classifyBatch db device_id user_id events).rejected_count,
        (insertIndividually (db,
          (classifyBatch db device_id user_id events).accepted_count,
          (classifyBatch db device_id user_id events).last_acked_sequence)
          (classifyBatch db device_id user_id events).events_to_insert).2.2,
        (classifyBatch db device_id user_id events).rejected_event_ids⟩) := by
  unfold sync_events
  rw [hshape]
  simp only [Bool.not_true, Bool.false_eq_true, if_false, hne, if_neg hnok]

theorem sync_stores_ids (db : DB) (device_id user_id : Nat)
    (events : List InEvent) (hshape : batchShapeOk events = true)
    (hval : ∀ e ∈ events, ∃ p,
      validate_event_payload e.event_type e.payload = .ok p) :
    ∀ e ∈ events, ((sync_events db device_id user_id events).1).events.any
      (fun ev => ev.event_id == e.event_id) = true := by
  intro e he
  rcases classify_covers db device_id user_id events ⟨0, 0, [], none, []⟩
    hval e he with hex | ⟨ev, hev, hevid⟩
  · -- already stored: every path only appends to the events table
    by_cases hemp : (classifyBatch db device_id user_id
        events).events_to_insert.isEmpty = true
    · rw [sync_events_no_insert db device_id user_id events hshape hemp]
      exact hex
    · by_cases hok : ((classifyBatch db device_id user_id
          events).events_to_insert.map (fun e => e.event_id)).Nodup ∧
          ∀ ev ∈ (classifyBatch db device_id user_id events).events_to_insert,
            ¬ db.events.any (fun e0 => e0.event_id == ev.event_id) = true
      · rw [sync_events_bulk db device_id user_id events hshape
          (by simpa using hemp) hok]
        show (update_projections _ _ _).events.any _ = true
        rw [update_projections_events]
        show (db.events ++ _).any _ = true
        rw [List.any_append, hex]
        rfl
      · rw [sync_events_fallback db device_id user_id events hshape
          (by simpa using hemp) hok]
        obtain ⟨extra, hextra⟩ := insertIndividually_events_grow
          (classifyBatch db device_id user_id events).events_to_insert db
          (classifyBatch db device_id user_id events).accepted_count
          (classifyBatch db device_id user_id events).last_acked_sequence
        show (insertIndividually _ _).1.events.any _ = true
        rw [hextra, List.any_append, hex]
        rfl
  · -- freshly staged: both insert paths make the event_id durable
    have hev' : ev ∈ (classifyBatch db device_id user_id
        events).events_to_insert := hev
    have hemp : (classifyBatch db device_id user_id
        events).events_to_insert.isEmpty = false := by
      rcases Bool.eq_false_or_eq_true ((classifyBatch db device_id user_id
          events).events_to_insert.isEmpty) with h | h
      · rw [List.isEmpty_iff] at h
        rw [h] at hev'
        simp at hev'
      · exact h
    by_cases hok : ((classifyBatch db device_id user_id
        events).events_to_insert.map (fun e => e.event_id)).Nodup ∧
        ∀ ev ∈ (classifyBatch db device_id user_id events).events_to_insert,
          ¬ db.events.any (fun e0 => e0.event_id == ev.event_id) = true
    · rw [sync_events_bulk db device_id user_id events hshape hemp hok]
      show (update_projections _ _ _).events.any _ = true
      rw [update_projections_events]
      show (db.events ++ _).any _ = true
      rw [List.any_append]
      have : (classifyBatch db device_id user_id
          events).events_to_insert.any
            (fun e0 => e0.event_id == e.event_id) = true := by
        rw [List.any_eq_true]
        exact ⟨ev, hev, by simp [hevid]⟩
      rw [this]
      simp
    · rw [sync_events_fallback db device_id user_id events hshape hemp hok]
      have := insertIndividually_stores
        (classifyBatch db device_id user_id events).events_to_insert db
        (classifyBatch db device_id user_id events).accepted_count
        (classifyBatch db device_id user_id events).last_acked_sequence ev hev
      show (insertIndividually _ _).1.events.any _ = true
      rw [List.any_eq_true] at this ⊢
      obtain ⟨x, hx, hxid⟩ := this
      exact ⟨x, hx, by
        rw [beq_iff_eq] at hxid ⊢
        rw [hxid, hevid]⟩

theorem bumpAck_fold_max :
    ∀ (l : List Int) (a : Int), ∃ m, l.foldl bumpAck (some a) = some m ∧
      (m = a ∨ m ∈ l) ∧ a ≤ m ∧ ∀ s ∈ l, s ≤ m := by
  intro l
  induction l with
  | nil => intro a; exact ⟨a, rfl, Or.inl rfl, le_refl a, by simp⟩
  | cons s t ih =>
    intro a
    rw [List.foldl_cons]
    have hstep : bumpAck (some a) s = some (if s > a then s else a) := by
      show (if s > a then some s else some a) = some (if s > a then s else a)
      by_cases h : s > a
      · rw [if_pos h, if_pos h]
      · rw [if_neg h, if_neg h]
    rw [hstep]
    obtain ⟨m, hm, hmem, hle, hall⟩ := ih (if s > a then s else a)
    refine ⟨m, hm, ?_, ?_, ?_⟩
    · rcases hmem with h | h
      · by_cases hgt : s > a
        · rw [if_pos hgt] at h
          exact Or.inr (h ▸ List.mem_cons_self _ _)
        · rw [if_neg hgt] at h
          exact Or.inl h
      · exact Or.inr (List.mem_cons_of_mem _ h)
    · by_cases hgt : s > a
      · rw [if_pos hgt] at hle
        omega
      · rw [if_neg hgt] at hle
        exact hle
    · intro s' hs'
      rcases List.mem_cons.mp hs' with rfl | hs't
      · by_cases hgt : s' > a
        · rw [if_pos hgt] at hle
          exact hle
        · rw [if_neg hgt] at hle
          omega
      · exact hall s' hs't

theorem bumpAck_fold_none (l : List Int) (h : l ≠ []) :
    ∃ m, l.foldl bumpAck none = some m ∧ m ∈ l ∧ ∀ s ∈ l, s ≤ m := by
  cases l with
  | nil => exact absurd rfl h
  | cons s t =>
    rw [List.foldl_cons]
    have hstep : bumpAck none s = some s := rfl
    rw [hstep]
    obtain ⟨m, hm, hmem, hle, hall⟩ := bumpAck_fold_max t s
    refine ⟨m, hm, ?_, ?_⟩
    · rcases hmem with rfl | hmt
      · exact List.mem_cons_self _ _
      · exact List.mem_cons_of_mem _ hmt
    · intro s' hs'
      rcases List.mem_cons.mp hs' with rfl | hs't
      · exact hle
      · exact hall s' hs't

/-- C1 counterexample: a two-event batch whose payloads are all valid but
whose sequence_numbers collide is rejected whole, so on the repeat sync
`accepted_count` is 0, not the batch size 2. -/
theorem c1_counterexample :
    (∀ e ∈ dupSeqBatch, ∃ p,
      validate_event_payload e.event_type e.payload = .ok p) ∧
    (sync_events ((sync_events emptyDB 5 9 dupSeqBatch).1) 5 9
      dupSeqBatch).2.accepted_count ≠ dupSeqBatch.length := by
  constructor
  · intro e he
    rcases List.mem_cons.mp he with rfl | he
    · exact ⟨_, rfl⟩
    · rcases List.mem_cons.mp he with rfl | he
      · exact ⟨_, rfl⟩
      · simp at he
  · decide

/-- C1 (amended): for every nonempty batch B whose payloads all validate
and whose sequence_numbers are strictly increasing, syncing B once and then
any number k of further times (same device and user) leaves the database
— stored event set and all projection state — exactly as after the first
sync; each repeat inserts no event row and returns accepted_count = |B|,
rejected_count = 0, no rejected ids, and last_acked_sequence = the maximum
sequence_number of B. -/
theorem c1_sync_idempotent (db : DB) (device_id user_id : Nat)
    (events : List InEvent) (hne : events ≠ [])
    (hPW : (events.map (fun e => e.sequence_number)).Pairwise (· < ·))
    (hval : ∀ e ∈ events, ∃ p,
      validate_event_payload e.event_type e.payload = .ok p) :
    (∀ k : Nat, syncIter device_id user_id events k
        (sync_events db device_id user_id events).1 =
      (sync_events db device_id user_id events).1) ∧
    (∃ m : Int,
      sync_events (sync_events db device_id user_id events).1 device_id
          user_id events =
        ((sync_events db device_id user_id events).1,
         ⟨events.length, 0, some m, []⟩) ∧
      m ∈ events.map (fun e => e.sequence_number) ∧
      ∀ s ∈ events.map (fun e => e.sequence_number), s ≤ m) := by
  have hshape : batchShapeOk events = true := (batchShapeOk_iff events).mpr hPW
  have hstored := sync_stores_ids db device_id user_id events hshape hval
  obtain ⟨m, hm, hmmem, hmall⟩ := bumpAck_fold_none
    (events.map (fun e => e.sequence_number)) (by simpa using hne)
  have hclass : classifyBatch
      ((sync_events db device_id user_id events).1) device_id user_id events =
      ⟨events.length, 0, [], some m, []⟩ := by
    unfold classifyBatch
    rw [classify_all_dup _ device_id user_id events _
      (fun e he => ⟨hval e he, hstored e he⟩)]
    simp [hm]
  have hrepeat : sync_events (sync_events db device_id user_id events).1
      device_id user_id events =
      ((sync_events db device_id user_id events).1,
       ⟨events.length, 0, some m, []⟩) := by
    rw [sync_events_no_insert _ device_id user_id events hshape
      (by rw [hclass]; rfl), hclass]
  refine ⟨?_, ⟨m, hrepeat, hmmem, hmall⟩⟩
  intro k
  induction k with
  | zero => rfl
  | succ k ih =>
    show syncIter device_id user_id events k
      (sync_events (sync_events db device_id user_id events).1 device_id
        user_id events).1 = _
    rw [hrepeat]
    exact ih

/-- Witness for C1 at the happy-path batch over the empty database. -/
theorem c1_sync_idempotent_witness :
    syncIter 5 9 happyBatch 3 (sync_events emptyDB 5 9 happyBatch).1 =
      (sync_events emptyDB 5 9 happyBatch).1 ∧
    ∃ m : Int,
      sync_events (sync_events emptyDB 5 9 happyBatch).1 5 9 happyBatch =
        ((sync_events emptyDB 5 9 happyBatch).1,
         ⟨happyBatch.length, 0, some m, []⟩) ∧
      m ∈ happyBatch.map (fun e => e.sequence_number) ∧
      ∀ s ∈ happyBatch.map (fun e => e.sequence_number), s ≤ m := by
  have h := c1_sync_idempotent emptyDB 5 9 happyBatch (by decide) (by decide)
    (by
      intro e he
      rcases List.mem_cons.mp he with rfl | he
      · exact ⟨_, rfl⟩
      · rcases List.mem_cons.mp he with rfl | he
        · exact ⟨_, rfl⟩
        · rcases List.mem_cons.mp he with rfl | he
          · exact ⟨_, rfl⟩
          · simp at he)
  exact ⟨h.1 3, h.2⟩

/-! ### C2 — sync followed by rebuild: supporting lemmas -/

theorem updateFirst_decomp (p : α → Bool) (f : α → α) :
    ∀ (l : List α) (x : α), l.find? p = some x →
      ∃ l1 l2, l = l1 ++ x :: l2 ∧ (∀ y ∈ l1, p y = false) ∧
        updateFirst p f l = l1 ++ f x :: l2 := by
  intro l
  induction l with
  | nil => intro x hx; cases hx
  | cons a t ih =>
    intro x hx
    by_cases ha : p a = true
    · rw [List.find?_cons_of_pos _ ha] at hx
      cases hx
      exact ⟨[], t, rfl, by simp, by rw [updateFirst_cons_pos f t ha]; rfl⟩
    · have ha' : p a = false := by simpa using ha
      rw [List.find?_cons_of_neg _ (by simp [ha'])] at hx
      obtain ⟨l1, l2, hl, hl1, hupd⟩ := ih x hx
      refine ⟨a :: l1, l2, by rw [List.cons_append, ← hl], ?_, ?_⟩
      · intro y hy
        rcases List.mem_cons.mp hy with rfl | hy
        · exact ha'
        · exact hl1 y hy
      · rw [updateFirst_cons_neg f t ha', hupd, List.cons_append]

theorem updateFirst_congr_first (p : α → Bool) (f g : α → α) :
    ∀ (l : List α) (x : α), l.find? p = some x → f x = g x →
      updateFirst p f l = updateFirst p g l := by
  intro l
  induction l with
  | nil => intro x hx; cases hx
  | cons a t ih =>
    intro x hx hfg
    by_cases ha : p a = true
    · rw [List.find?_cons_of_pos _ ha] at hx
      cases hx
      rw [updateFirst_cons_pos f t ha, updateFirst_cons_pos g t ha, hfg]
    · have ha' : p a = false := by simpa using ha
      rw [List.find?_cons_of_neg _ (by simp [ha'])] at hx
      rw [updateFirst_cons_neg f t ha', updateFirst_cons_neg g t ha',
        ih x hx hfg]

theorem any_widMatch_iff (l : List WorkoutProjection) (k : Nat) :
    l.any (widMatch k) = true ↔ k ∈ l.map (fun r => r.workout_id) := by
  rw [List.any_eq_true]
  constructor
  · rintro ⟨r, hr, hpr⟩
    rw [List.mem_map]
    exact ⟨r, hr, by simpa [widMatch] using hpr⟩
  · intro h
    rw [List.mem_map] at h
    obtain ⟨r, hr, hrk⟩ := h
    exact ⟨r, hr, by simp [widMatch, hrk]⟩

theorem any_widMatch_false_iff (l : List WorkoutProjection) (k : Nat) :
    l.any (widMatch k) = false ↔ k ∉ l.map (fun r => r.workout_id) := by
  constructor
  · intro h hk
    rw [← any_widMatch_iff] at hk
    rw [h] at hk
    cases hk
  · intro h
    rcases Bool.eq_false_or_eq_true (l.any (widMatch k)) with h' | h'
    · exact absurd ((any_widMatch_iff l k).mp h') h
    · exact h'

theorem foldlM_wfStep_append :
    ∀ (l1 l2 : List Event) (st st1 : List Nat × List Nat),
      l1.foldlM wfStep st = some st1 →
      (l1 ++ l2).foldlM wfStep st = l2.foldlM wfStep st1 := by
  intro l1
  induction l1 with
  | nil =>
    intro l2 st st1 h
    cases h
    rfl
  | cons e t ih =>
    intro l2 st st1 h
    rw [List.cons_append]
    cases hst : wfStep st e with
    | none =>
      rw [List.foldlM_cons, hst] at h
      cases h
    | some st' =>
      rw [List.foldlM_cons, hst] at h
      rw [List.foldlM_cons, hst]
      exact ih l2 st' st1 h

theorem foldlM_wfStep_isSome_front :
    ∀ (l1 l2 : List Event) (st : List Nat × List Nat),
      ((l1 ++ l2).foldlM wfStep st).isSome = true →
      ∃ st1, l1.foldlM wfStep st = some st1 ∧
        (l2.foldlM wfStep st1).isSome = true := by
  intro l1
  induction l1 with
  | nil =>
    intro l2 st h
    exact ⟨st, rfl, h⟩
  | cons e t ih =>
    intro l2 st h
    rw [List.cons_append, List.foldlM_cons] at h
    cases hst : wfStep st e with
    | none =>
      rw [hst] at h
      cases h
    | some st' =>
      rw [hst] at h
      obtain ⟨st1, h1, h2⟩ := ih l2 st' h
      refine ⟨st1, ?_, h2⟩
      rw [List.foldlM_cons, hst]
      exact h1

theorem wfStep_mono (st st1 : List Nat × List Nat) (e : Event)
    (h : wfStep st e = some st1) : st.1 ⊆ st1.1 ∧ st.2 ⊆ st1.2 := by
  unfold wfStep at h
  rcases e with ⟨eid, p, uid, did, seq⟩
  cases p with
  | workoutStarted wid t =>
    simp only at h
    by_cases hw : wid ∈ st.2
    · rw [if_pos hw] at h
      cases h
    · rw [if_neg hw] at h
      cases h
      refine ⟨?_, fun x hx => hx⟩
      intro x hx
      rw [mem_insertUniq]
      exact Or.inl hx
  | workoutEnded wid t =>
    simp only at h
    by_cases hw : wid ∈ st.1
    · rw [if_pos hw] at h
      cases h
      refine ⟨fun x hx => hx, ?_⟩
      intro x hx
      rw [mem_insertUniq]
      exact Or.inl hx
    · rw [if_neg hw] at h
      cases h
  | exerciseAdded wid eid2 nm =>
    simp only at h
    cases h
    exact ⟨fun x hx => hx, fun x hx => hx⟩
  | setCompleted wid eid2 sid r wt t =>
    simp only at h
    by_cases hw : wid ∈ st.1
    · rw [if_pos hw] at h
      cases h
      exact ⟨fun x hx => hx, fun x hx => hx⟩
    · rw [if_neg hw] at h
      cases h

theorem foldlM_wfStep_mono :
    ∀ (l : List Event) (st st1 : List Nat × List Nat),
      l.foldlM wfStep st = some st1 → st.1 ⊆ st1.1 ∧ st.2 ⊆ st1.2 := by
  intro l
  induction l with
  | nil =>
    intro st st1 h
    cases h
    exact ⟨fun x hx => hx, fun x hx => hx⟩
  | cons e t ih =>
    intro st st1 h
    rw [List.foldlM_cons] at h
    cases hst : wfStep st e with
    | none => rw [hst] at h; cases h
    | some st' =>
      rw [hst] at h
      obtain ⟨h1, h2⟩ := wfStep_mono st st' e hst
      obtain ⟨h3, h4⟩ := ih st' st1 h
      exact ⟨fun x hx => h3 (h1 hx), fun x hx => h4 (h2 hx)⟩

theorem wf_set_started :
    ∀ (l : List Event) (st st1 : List Nat × List Nat),
      l.foldlM wfStep st = some st1 →
      ∀ e ∈ l, ∀ (wid eid sid : Nat) (r : Int) (wt : Rat) (t : DateTime),
        e.payload = .setCompleted wid eid sid r wt t → wid ∈ st1.1 := by
  intro l
  induction l with
  | nil => intro st st1 _ e he; simp at he
  | cons e0 tl ih =>
    intro st st1 h e he wid eid sid r wt t hp
    rw [List.foldlM_cons] at h
    cases hst : wfStep st e0 with
    | none => rw [hst] at h; cases h
    | some st' =>
      rw [hst] at h
      rcases List.mem_cons.mp he with rfl | het
      · have hwid : wid ∈ st'.1 := by
          unfold wfStep at hst
          rw [hp] at hst
          simp only at hst
          by_cases hw : wid ∈ st.1
          · rw [if_pos hw] at hst
            cases hst
            exact hw
          · rw [if_neg hw] at hst
            cases hst
        exact (foldlM_wfStep_mono tl st' st1 h).1 hwid
      · exact ih st' st1 h e het wid eid sid r wt t hp

theorem forall2_mem_left {R : α → β → Prop} {l1 : List α} {l2 : List β}
    (h : List.Forall₂ R l1 l2) : ∀ a ∈ l1, ∃ b ∈ l2, R a b := by
  induction h with
  | nil => intro a ha; simp at ha
  | cons hab htail ih =>
    intro a ha
    rcases List.mem_cons.mp ha with rfl | ha
    · exact ⟨_, List.mem_cons_self _ _, hab⟩
    · obtain ⟨b, hb, hRb⟩ := ih a ha
      exact ⟨b, List.mem_cons_of_mem _ hb, hRb⟩

theorem forall2_mem_right {R : α → β → Prop} {l1 : List α} {l2 : List β}
    (h : List.Forall₂ R l1 l2) : ∀ b ∈ l2, ∃ a ∈ l1, R a b := by
  induction h with
  | nil => intro b hb; simp at hb
  | cons hab htail ih =>
    intro b hb
    rcases List.mem_cons.mp hb with rfl | hb
    · exact ⟨_, List.mem_cons_self _ _, hab⟩
    · obtain ⟨a, ha, hRa⟩ := ih b hb
      exact ⟨a, List.mem_cons_of_mem _ ha, hRa⟩

theorem forall2_map_eq {R : α → β → Prop} (f : α → γ) (g : β → γ)
    (hfg : ∀ a b, R a b → f a = g b) {l1 : List α} {l2 : List β}
    (h : List.Forall₂ R l1 l2) : l1.map f = l2.map g := by
  induction h with
  | nil => rfl
  | cons hab htail ih =>
    simp only [List.map_cons]
    rw [hfg _ _ hab, ih]

theorem WInv_replace (l1 l2 : List WorkoutProjection) (x y : WorkoutProjection)
    (started ended ended' : List Nat) (u : Nat)
    (hinv : WInv (l1 ++ x :: l2) started ended u)
    (hid : y.workout_id = x.workout_id)
    (hyu : y.user_id = u)
    (hyc : y.status = "completed" ↔ y.workout_id ∈ ended')
    (hother : ∀ k, k ≠ x.workout_id → (k ∈ ended ↔ k ∈ ended')) :
    WInv (l1 ++ y :: l2) started ended' u := by
  obtain ⟨hkeys, hcompl, huser, hnodup⟩ := hinv
  have hmapeq : (l1 ++ y :: l2).map (fun r => r.workout_id) =
      (l1 ++ x :: l2).map (fun r => r.workout_id) := by
    simp only [List.map_append, List.map_cons]
    rw [hid]
  have hnodup' : ((l1 ++ x :: l2).map (fun r => r.workout_id)).Nodup := hnodup
  simp only [List.map_append, List.map_cons] at hnodup'
  rw [List.nodup_middle, List.nodup_cons] at hnodup'
  have hxne : ∀ r : WorkoutProjection, r ∈ l1 ∨ r ∈ l2 →
      r.workout_id ≠ x.workout_id := by
    intro r hr heq
    apply hnodup'.1
    rw [← heq, List.mem_append]
    rcases hr with hr | hr
    · exact Or.inl (List.mem_map.mpr ⟨r, hr, rfl⟩)
    · exact Or.inr (List.mem_map.mpr ⟨r, hr, rfl⟩)
  refine ⟨?_, ?_, ?_, ?_⟩
  · intro wid
    rw [hmapeq]
    exact hkeys wid
  · intro r hr
    rcases List.mem_append.mp hr with hr1 | hr2
    · exact (hcompl r (List.mem_append.mpr (Or.inl hr1))).trans
        (hother r.workout_id (hxne r (Or.inl hr1)))
    · rcases List.mem_cons.mp hr2 with rfl | hr2
      · exact hyc
      · exact (hcompl r (List.mem_append.mpr (Or.inr
          (List.mem_cons_of_mem x hr2)))).trans
          (hother r.workout_id (hxne r (Or.inr hr2)))
  · intro r hr
    rcases List.mem_append.mp hr with hr1 | hr2
    · exact huser r (List.mem_append.mpr (Or.inl hr1))
    · rcases List.mem_cons.mp hr2 with rfl | hr2
      · exact hyu
      · exact huser r (List.mem_append.mpr (Or.inr
          (List.mem_cons_of_mem x hr2)))
  · rw [hmapeq]
    exact hnodup

theorem WInv_append (m : List WorkoutProjection) (started ended : List Nat)
    (u : Nat) (y : WorkoutProjection)
    (hinv : WInv m started ended u)
    (hnots : y.workout_id ∉ started)
    (hyu : y.user_id = u)
    (hyc : y.status = "completed" ↔ y.workout_id ∈ ended) :
    WInv (m ++ [y]) (insertUniq started y.workout_id) ended u := by
  obtain ⟨hkeys, hcompl, huser, hnodup⟩ := hinv
  refine ⟨?_, ?_, ?_, ?_⟩
  · intro wid
    rw [List.map_append, List.mem_append, mem_insertUniq]
    constructor
    · rintro (h | h)
      · exact Or.inl ((hkeys wid).mp h)
      · simp only [List.map_cons, List.map_nil, List.mem_singleton] at h
        exact Or.inr h
    · rintro (h | h)
      · exact Or.inl ((hkeys wid).mpr h)
      · right
        simp only [List.map_cons, List.map_nil, List.mem_singleton]
        exact h
  · intro r hr
    rcases List.mem_append.mp hr with hr | hr
    · exact hcompl r hr
    · rcases List.mem_singleton.mp hr with rfl
      exact hyc
  · intro r hr
    rcases List.mem_append.mp hr with hr | hr
    · exact huser r hr
    · rcases List.mem_singleton.mp hr with rfl
      exact hyu
  · rw [List.map_append, List.nodup_append]
    refine ⟨hnodup, by simp, ?_⟩
    intro a ha hay
    simp only [List.map_cons, List.map_nil, List.mem_singleton] at hay
    rw [hay] at ha
    exact hnots ((hkeys y.workout_id).mp ha)

/-- Step agreement of the incremental workout upsert and the rebuilder's
replay step: on a well-formed log step the two produce the same table, and
the replay table keeps the `WInv` invariant for the advanced scan state. -/
theorem applyW_eq_replayStep (u : Nat) (m : List WorkoutProjection)
    (st st' : List Nat × List Nat) (e : Event)
    (hu : e.user_id = u)
    (hinv : WInv m st.1 st.2 u)
    (hstep : wfStep st e = some st') :
    applyWorkoutEvent m e = replayWorkoutStep m e ∧
    WInv (replayWorkoutStep m e) st'.1 st'.2 u := by
  unfold wfStep at hstep
  rcases e with ⟨eid, p, euid, did, seq⟩
  have hu' : euid = u := hu
  cases p with
  | workoutStarted wid t =>
    simp only at hstep
    by_cases hw2 : wid ∈ st.2
    · rw [if_pos hw2] at hstep
      cases hstep
    · rw [if_neg hw2] at hstep
      cases hstep
      have hkeys := hinv.1
      have hcompl := hinv.2.1
      have huser := hinv.2.2.1
      by_cases hany : m.any (widMatch wid) = true
      · obtain ⟨x, hx⟩ : ∃ x, m.find? (widMatch wid) = some x := by
          rw [← Option.isSome_iff_exists, List.find?_isSome]
          obtain ⟨r, hr, hpr⟩ := List.any_eq_true.mp hany
          exact ⟨r, hr, hpr⟩
        have hxmem : x ∈ m := List.mem_of_find?_eq_some hx
        have hxw : x.workout_id = wid := by
          have h := List.find?_some hx
          simpa [widMatch] using h
        have hxu : x.user_id = u := huser x hxmem
        have hxs : ¬ ((x.status == "completed") = true) := by
          intro h
          apply hw2
          rw [← hxw]
          exact (hcompl x hxmem).mp (by simpa using h)
        have hfg : (if x.status == "completed" then
              ({ x with started_at := t } : WorkoutProjection)
            else { x with started_at := t, status := "in_progress",
                          ended_at := none }) =
            (⟨wid, euid, t, none, "in_progress"⟩ : WorkoutProjection) := by
          rw [if_neg hxs]
          show (⟨x.workout_id, x.user_id, t, none, "in_progress"⟩ :
            WorkoutProjection) = ⟨wid, euid, t, none, "in_progress"⟩
          rw [hxw, hxu, hu']
        constructor
        · show (if m.any (widMatch wid) then
              updateFirst (widMatch wid) (fun w =>
                if w.status == "completed" then { w with started_at := t }
                else { w with started_at := t, status := "in_progress",
                              ended_at := none }) m
            else m ++ [⟨wid, euid, t, none, "in_progress"⟩]) =
            (if m.any (widMatch wid) then
              updateFirst (widMatch wid)
                (fun _ => ⟨wid, euid, t, none, "in_progress"⟩) m
            else m ++ [⟨wid, euid, t, none, "in_progress"⟩])
          rw [if_pos hany, if_pos hany]
          exact updateFirst_congr_first _ _ _ m x hx hfg
        · show WInv (replayWorkoutStep m
              ⟨eid, .workoutStarted wid t, euid, did, seq⟩)
            (insertUniq st.1 wid) st.2 u
          have hw1 : wid ∈ st.1 :=
            (hkeys wid).mp ((any_widMatch_iff m wid).mp hany)
          have hins : insertUniq st.1 wid = st.1 := by
            unfold insertUniq
            rw [if_pos hw1]
          rw [hins]
          show WInv (if m.any (widMatch wid) then
              updateFirst (widMatch wid)
                (fun _ => ⟨wid, euid, t, none, "in_progress"⟩) m
            else m ++ [⟨wid, euid, t, none, "in_progress"⟩]) st.1 st.2 u
          rw [if_pos hany]
          obtain ⟨l1, l2, hm, hl1, hupd⟩ := updateFirst_decomp (widMatch wid)
            (fun _ => (⟨wid, euid, t, none, "in_progress"⟩ :
              WorkoutProjection)) m x hx
          rw [hupd]
          have hinv' : WInv (l1 ++ x :: l2) st.1 st.2 u := by
            rw [← hm]
            exact hinv
          exact WInv_replace l1 l2 x ⟨wid, euid, t, none, "in_progress"⟩
            st.1 st.2 st.2 u hinv'
            (by show wid = x.workout_id; rw [hxw])
            hu'
            (by
              constructor
              · intro habs
                exact absurd (show ("in_progress" : String) = "completed"
                  from habs) (by decide)
              · intro hmem
                exact absurd hmem hw2)
            (fun k _ => Iff.rfl)
      · have hany' : m.any (widMatch wid) = false := by
          rcases Bool.eq_false_or_eq_true (m.any (widMatch wid)) with h | h
          · exact absurd h hany
          · exact h
        constructor
        · show (if m.any (widMatch wid) then
              updateFirst (widMatch wid) (fun w =>
                if w.status == "completed" then { w with started_at := t }
                else { w with started_at := t, status := "in_progress",
                              ended_at := none }) m
            else m ++ [⟨wid, euid, t, none, "in_progress"⟩]) =
            (if m.any (widMatch wid) then
              updateFirst (widMatch wid)
                (fun _ => ⟨wid, euid, t, none, "in_progress"⟩) m
            else m ++ [⟨wid, euid, t, none, "in_progress"⟩])
          rw [if_neg hany, if_neg hany]
        · show WInv (if m.any (widMatch wid) then
              updateFirst (widMatch wid)
                (fun _ => ⟨wid, euid, t, none, "in_progress"⟩) m
            else m ++ [⟨wid, euid, t, none, "in_progress"⟩])
            (insertUniq st.1 wid) st.2 u
          rw [if_neg hany]
          have hnots : wid ∉ st.1 := by
            intro hmem
            exact ((any_widMatch_false_iff m wid).mp hany')
              ((hkeys wid).mpr hmem)
          exact WInv_append m st.1 st.2 u ⟨wid, euid, t, none, "in_progress"⟩
            hinv hnots hu'
            (by
              constructor
              · intro habs
                exact absurd (show ("in_progress" : String) = "completed"
                  from habs) (by decide)
              · intro hmem
                exact absurd hmem hw2)
  | workoutEnded wid t =>
    simp only at hstep
    by_cases hw1 : wid ∈ st.1
    · rw [if_pos hw1] at hstep
      cases hstep
      have hkeys := hinv.1
      have hcompl := hinv.2.1
      have huser := hinv.2.2.1
      have hany : m.any (widMatch wid) = true :=
        (any_widMatch_iff m wid).mpr ((hkeys wid).mpr hw1)
      obtain ⟨x, hx⟩ : ∃ x, m.find? (widMatch wid) = some x := by
        rw [← Option.isSome_iff_exists, List.find?_isSome]
        obtain ⟨r, hr, hpr⟩ := List.any_eq_true.mp hany
        exact ⟨r, hr, hpr⟩
      have hxmem : x ∈ m := List.mem_of_find?_eq_some hx
      have hxw : x.workout_id = wid := by
        have h := List.find?_some hx
        simpa [widMatch] using h
      have hxu : x.user_id = u := huser x hxmem
      constructor
      · show (if m.any (widMatch wid) then
            updateFirst (widMatch wid) (fun w =>
              { w with ended_at := some t, status := "completed" }) m
          else m ++ [⟨wid, euid, t, some t, "completed"⟩]) =
          (if m.any (widMatch wid) then
            updateFirst (widMatch wid) (fun w =>
              { w with ended_at := some t, status := "completed" }) m
          else m)
        rw [if_pos hany, if_pos hany]
      · show WInv (replayWorkoutStep m
            ⟨eid, .workoutEnded wid t, euid, did, seq⟩)
          st.1 (insertUniq st.2 wid) u
        show WInv (if m.any (widMatch wid) then
            updateFirst (widMatch wid) (fun w =>
              { w with ended_at := some t, status := "completed" }) m
          else m) st.1 (insertUniq st.2 wid) u
        rw [if_pos hany]
        obtain ⟨l1, l2, hm, hl1, hupd⟩ := updateFirst_decomp (widMatch wid)
          (fun w => { w with ended_at := some t, status := "completed" }) m x hx
        rw [hupd]
        have hinv' : WInv (l1 ++ x :: l2) st.1 st.2 u := by
          rw [← hm]
          exact hinv
        exact WInv_replace l1 l2 x
          ⟨x.workout_id, x.user_id, x.started_at, some t, "completed"⟩
          st.1 st.2 (insertUniq st.2 wid) u hinv' rfl hxu
          (by
            constructor
            · intro _
              exact (mem_insertUniq st.2 wid x.workout_id).mpr (Or.inr hxw)
            · intro _
              rfl)
          (by
            intro k hk
            rw [mem_insertUniq]
            constructor
            · exact Or.inl
            · rintro (h | h)
              · exact h
              · exact absurd (h.trans hxw.symm) hk)
    · rw [if_neg hw1] at hstep
      cases hstep
  | exerciseAdded wid2 eid2 nm =>
    simp only at hstep
    cases hstep
    exact ⟨rfl, hinv⟩
  | setCompleted wid2 eid2 sid r wt t =>
    simp only at hstep
    by_cases hw1 : wid2 ∈ st.1
    · rw [if_pos hw1] at hstep
      cases hstep
      exact ⟨rfl, hinv⟩
    · rw [if_neg hw1] at hstep
      cases hstep

theorem foldW_eq_inv (u : Nat) :
    ∀ (E : List Event) (m : List WorkoutProjection)
      (st st' : List Nat × List Nat),
      WInv m st.1 st.2 u → (∀ e ∈ E, e.user_id = u) →
      E.foldlM wfStep st = some st' →
      E.foldl applyWorkoutEvent m = E.foldl replayWorkoutStep m ∧
      WInv (E.foldl replayWorkoutStep m) st'.1 st'.2 u := by
  intro E
  induction E with
  | nil =>
    intro m st st' hinv _ h
    cases h
    exact ⟨rfl, hinv⟩
  | cons e tl ih =>
    intro m st st' hinv hus h
    rw [List.foldlM_cons] at h
    cases hst : wfStep st e with
    | none =>
      rw [hst] at h
      cases h
    | some st1 =>
      rw [hst] at h
      obtain ⟨heq, hinv1⟩ := applyW_eq_replayStep u m st st1 e
        (hus e (List.mem_cons_self _ _)) hinv hst
      rw [List.foldl_cons, List.foldl_cons, heq]
      exact ih (replayWorkoutStep m e) st1 st' hinv1
        (fun e' he' => hus e' (List.mem_cons_of_mem _ he')) h

theorem replay_WInv (u : Nat) (L : List Event) (stL : List Nat × List Nat)
    (hus : ∀ e ∈ L, e.user_id = u) (h : wfScan L = some stL) :
    WInv (replayWorkouts L) stL.1 stL.2 u := by
  have hbase : WInv ([] : List WorkoutProjection) ([] : List Nat)
      ([] : List Nat) u := by
    refine ⟨?_, ?_, ?_, ?_⟩ <;> simp
  exact (foldW_eq_inv u L [] ([], []) stL hbase hus h).2

theorem foldl_filter_eq_of_id (p : α → Bool) (step : β → α → β)
    (hid : ∀ b a, p a = false → step b a = b) :
    ∀ (l : List α) (b : β), (l.filter p).foldl step b = l.foldl step b := by
  intro l
  induction l with
  | nil => intro b; rfl
  | cons a tl ih =>
    intro b
    rw [List.filter_cons]
    by_cases ha : p a = true
    · rw [if_pos ha, List.foldl_cons, List.foldl_cons, ih]
    · have ha' : p a = false := by
        rcases Bool.eq_false_or_eq_true (p a) with h | h
        · exact absurd h ha
        · exact h
      rw [if_neg ha, List.foldl_cons, hid b a ha', ih]

theorem applyWorkoutEvent_not_workout (m : List WorkoutProjection) (e : Event)
    (h : isWorkoutEvent e = false) : applyWorkoutEvent m e = m := by
  rcases e with ⟨eid, p, euid, did, seq⟩
  cases p with
  | workoutStarted wid t => simp [isWorkoutEvent] at h
  | workoutEnded wid t => simp [isWorkoutEvent] at h
  | exerciseAdded a b c => rfl
  | setCompleted a b c d f g => rfl

theorem applySetEvent_not_set (W : List WorkoutProjection)
    (s : List SetProjection) (e : Event) (h : isSetEvent e = false) :
    applySetEvent W s e = s := by
  rcases e with ⟨eid, p, euid, did, seq⟩
  cases p with
  | workoutStarted a b => rfl
  | workoutEnded a b => rfl
  | exerciseAdded a b c => rfl
  | setCompleted a b c d f g => simp [isSetEvent] at h

/-- The set-phase upsert of the incremental updater and the rebuilder's set
replay step coincide outright: against the same workout table and the same
set table they write the same row. -/
theorem applySet_eq_replay (W : List WorkoutProjection)
    (s : List SetProjection) (e : Event) :
    applySetEvent W s e = replaySetStep W s e := by
  rcases e with ⟨eid0, p, euid, did, seq⟩
  cases p with
  | workoutStarted a b => rfl
  | workoutEnded a b => rfl
  | exerciseAdded a b c => rfl
  | setCompleted wid eid2 sid r wt t =>
    show (if W.any (widMatch wid) then
        if s.any (sidMatch sid) then
          updateFirst (sidMatch sid) (fun x =>
            { x with workout_id := wid, exercise_id := eid2, reps := some r,
                     weight := some wt, completed_at := t }) s
        else s ++ [⟨sid, wid, eid2, some r, some wt, t⟩]
      else s) =
      (if W.any (widMatch wid) then
        if s.any (sidMatch sid) then
          updateFirst (sidMatch sid)
            (fun _ => ⟨sid, wid, eid2, some r, some wt, t⟩) s
        else s ++ [⟨sid, wid, eid2, some r, some wt, t⟩]
      else s)
    by_cases hW : W.any (widMatch wid) = true
    · rw [if_pos hW, if_pos hW]
      by_cases hsy : s.any (sidMatch sid) = true
      · rw [if_pos hsy, if_pos hsy]
        obtain ⟨x, hx⟩ : ∃ x, s.find? (sidMatch sid) = some x := by
          rw [← Option.isSome_iff_exists, List.find?_isSome]
          obtain ⟨r0, hr0, hpr0⟩ := List.any_eq_true.mp hsy
          exact ⟨r0, hr0, hpr0⟩
        have hxs : x.set_id = sid := by
          have h := List.find?_some hx
          simpa [sidMatch] using h
        apply updateFirst_congr_first _ _ _ s x hx
        show (⟨x.set_id, wid, eid2, some r, some wt, t⟩ : SetProjection) =
          ⟨sid, wid, eid2, some r, some wt, t⟩
        rw [hxs]
      · rw [if_neg hsy, if_neg hsy]
    · rw [if_neg hW, if_neg hW]

theorem applySetEvent_eq_fun (W : List WorkoutProjection) :
    applySetEvent W = replaySetStep W := by
  funext s e
  exact applySet_eq_replay W s e

theorem replaySetStep_congr_W (W W' : List WorkoutProjection)
    (s : List SetProjection) (e : Event)
    (h : ∀ wid eid sid r wt t,
      e.payload = .setCompleted wid eid sid r wt t →
      W.any (widMatch wid) = true ∧ W'.any (widMatch wid) = true) :
    replaySetStep W s e = replaySetStep W' s e := by
  rcases e with ⟨eid0, p, euid, did, seq⟩
  cases p with
  | workoutStarted a b => rfl
  | workoutEnded a b => rfl
  | exerciseAdded a b c => rfl
  | setCompleted wid eid2 sid r wt t =>
    obtain ⟨h1, h2⟩ := h wid eid2 sid r wt t rfl
    show (if W.any (widMatch wid) then
        if s.any (sidMatch sid) then
          updateFirst (sidMatch sid)
            (fun _ => ⟨sid, wid, eid2, some r, some wt, t⟩) s
        else s ++ [⟨sid, wid, eid2, some r, some wt, t⟩]
      else s) =
      (if W'.any (widMatch wid) then
        if s.any (sidMatch sid) then
          updateFirst (sidMatch sid)
            (fun _ => ⟨sid, wid, eid2, some r, some wt, t⟩) s
        else s ++ [⟨sid, wid, eid2, some r, some wt, t⟩]
      else s)
    rw [if_pos h1, if_pos h2]

theorem foldl_replaySetStep_congr (W W' : List WorkoutProjection) :
    ∀ (L : List Event) (s : List SetProjection),
      (∀ e ∈ L, ∀ wid eid sid r wt t,
        e.payload = .setCompleted wid eid sid r wt t →
        W.any (widMatch wid) = true ∧ W'.any (widMatch wid) = true) →
      L.foldl (replaySetStep W) s = L.foldl (replaySetStep W') s := by
  intro L
  induction L with
  | nil => intro s _; rfl
  | cons e tl ih =>
    intro s h
    rw [List.foldl_cons, List.foldl_cons,
      replaySetStep_congr_W W W' s e (h e (List.mem_cons_self _ _)),
      ih _ (fun e' he' => h e' (List.mem_cons_of_mem _ he'))]

/-- When every event of a batch validates and none of its event_ids is
already stored, the classification loop of `sync_events` rejects nothing,
accepts nothing as a duplicate, and stages exactly the corresponding stored
rows, in order. -/
theorem classify_all_fresh (db : DB) (d u : Nat) :
    ∀ (B : List InEvent) (E : List Event) (st0 : LoopState),
      List.Forall₂ (validatesTo d u) B E →
      (∀ e ∈ B, db.events.any (fun ev => ev.event_id == e.event_id) = false) →
      B.foldl (classifyStep db d u) st0 =
        { st0 with events_to_insert := st0.events_to_insert ++ E } := by
  intro B
  induction B with
  | nil =>
    intro E st0 hBE _
    cases hBE
    show st0 = { st0 with events_to_insert := st0.events_to_insert ++ [] }
    rw [List.append_nil]
  | cons e tl ih =>
    intro E st0 hBE hfresh
    cases hBE with
    | cons hev htail =>
      rename_i ev Etl
      obtain ⟨hv, hid, huid, hdid, hseq⟩ := hev
      have hev_eq : (⟨e.event_id, ev.payload, u, d, e.sequence_number⟩ :
          Event) = ev := by
        rcases ev with ⟨a, b, c, dd, f⟩
        have hid' : a = e.event_id := hid
        have huid' : c = u := huid
        have hdid' : dd = d := hdid
        have hseq' : f = e.sequence_number := hseq
        rw [hid', huid', hdid', hseq']
      rw [List.foldl_cons,
        classifyStep_stage db d u st0 e ev.payload hv
          (hfresh e (List.mem_cons_self _ _)),
        ih Etl _ htail (fun e' he' => hfresh e' (List.mem_cons_of_mem _ he'))]
      rw [hev_eq]
      show ({ st0 with events_to_insert :=
          (st0.events_to_insert ++ [ev]) ++ Etl } : LoopState) =
        { st0 with events_to_insert := st0.events_to_insert ++ ev :: Etl }
      rw [List.append_assoc, List.singleton_append]

/-- One accepted sync call on a batch that is a fresh, strictly increasing,
well-formed slice of the overall log keeps the database in lockstep with the
rebuilder's replay functions. -/
theorem sync_step_inv (device_id user_id : Nat) (db : DB) (L : List Event)
    (B : List InEvent) (E F : List Event)
    (hBE : List.Forall₂ (validatesTo device_id user_id) B E)
    (hne0 : E.isEmpty = false)
    (he : db.events = L)
    (hw : db.workouts = replayWorkouts L)
    (hs : db.sets = replaySets (replayWorkouts L) L)
    (hus : ∀ e ∈ L, e.user_id = user_id)
    (hnodup : ((L ++ (E ++ F)).map (fun e => e.event_id)).Nodup)
    (hpair : ((L ++ (E ++ F)).map
      (fun e => e.sequence_number)).Pairwise (· < ·))
    (hwf : (wfScan (L ++ (E ++ F))).isSome = true) :
    (sync_events db device_id user_id B).1.events = L ++ E ∧
    (sync_events db device_id user_id B).1.workouts = replayWorkouts (L ++ E) ∧
    (sync_events db device_id user_id B).1.sets =
      replaySets (replayWorkouts (L ++ E)) (L ++ E) := by
  have hnodup' := hnodup
  rw [List.map_append, List.map_append] at hnodup'
  obtain ⟨hndL, hndEF, hdisjLEF⟩ := List.nodup_append.mp hnodup'
  obtain ⟨hndE, hndF, hdisjEF⟩ := List.nodup_append.mp hndEF
  have hEusers : ∀ ev ∈ E, ev.user_id = user_id := by
    intro ev hev
    obtain ⟨b, hb, hvb⟩ := forall2_mem_right hBE ev hev
    exact hvb.2.2.1
  have hEdevs : ∀ ev ∈ E, ev.device_id = device_id := by
    intro ev hev
    obtain ⟨b, hb, hvb⟩ := forall2_mem_right hBE ev hev
    exact hvb.2.2.2.1
  have hBfresh : ∀ e ∈ B,
      db.events.any (fun ev0 => ev0.event_id == e.event_id) = false := by
    intro e he'
    rw [he, List.any_eq_false]
    intro x hx hbeq
    have hxe : x.event_id = e.event_id := by simpa using hbeq
    obtain ⟨ev, hev, hvb⟩ := forall2_mem_left hBE e he'
    exact hdisjLEF (List.mem_map.mpr ⟨x, hx, rfl⟩)
      (List.mem_append.mpr (Or.inl (by
        rw [hxe, ← hvb.2.1]
        exact List.mem_map.mpr ⟨ev, hev, rfl⟩)))
  have hseqmapBE : B.map (fun e => e.sequence_number) =
      E.map (fun e => e.sequence_number) :=
    forall2_map_eq _ _ (fun a b hab => hab.2.2.2.2.symm) hBE
  have hpair' := hpair
  rw [List.map_append, List.map_append] at hpair'
  have hEpair : (E.map (fun e => e.sequence_number)).Pairwise (· < ·) :=
    (List.pairwise_append.mp (List.pairwise_append.mp hpair').2.1).1
  have hshape : batchShapeOk B = true := by
    rw [batchShapeOk_iff, hseqmapBE]
    exact hEpair
  have hEsorted : E.Pairwise (fun a b => eventLe a b = true) := by
    refine List.Pairwise.imp_of_mem ?_ (List.pairwise_map.mp hEpair)
    intro a b ha hb hab
    have hda : a.device_id = device_id := hEdevs a ha
    have hdb2 : b.device_id = device_id := hEdevs b hb
    unfold eventLe
    rw [hda, hdb2]
    simp only [Bool.or_eq_true, Bool.and_eq_true, decide_eq_true_eq,
      beq_iff_eq]
    exact Or.inr ⟨by trivial, le_of_lt hab⟩
  have hsortE : sortByLe eventLe E = E := sortByLe_of_sorted eventLe E hEsorted
  have hclass : classifyBatch db device_id user_id B =
      ⟨0, 0, [], none, E⟩ := by
    unfold classifyBatch
    rw [classify_all_fresh db device_id user_id B E ⟨0, 0, [], none, []⟩
      hBE hBfresh]
    rfl
  have hne : (classifyBatch db device_id
      user_id B).events_to_insert.isEmpty = false := by
    rw [hclass]
    exact hne0
  have hok : ((classifyBatch db device_id user_id B).events_to_insert.map
      (fun e => e.event_id)).Nodup ∧
      ∀ ev ∈ (classifyBatch db device_id user_id B).events_to_insert,
        ¬ db.events.any (fun e0 => e0.event_id == ev.event_id) = true := by
    rw [hclass]
    refine ⟨hndE, ?_⟩
    intro ev hev habs
    have hevE : ev ∈ E := hev
    rw [he] at habs
    obtain ⟨x, hx, hbeq⟩ := List.any_eq_true.mp habs
    have hxe : x.event_id = ev.event_id := by simpa using hbeq
    exact hdisjLEF (List.mem_map.mpr ⟨x, hx, rfl⟩)
      (List.mem_append.mpr (Or.inl (by
        rw [hxe]
        exact List.mem_map.mpr ⟨ev, hevE, rfl⟩)))
  have hsync := sync_events_bulk db device_id user_id B hshape hne hok
  have hfst0 : (sync_events db device_id user_id B).1 =
      update_projections { db with events := db.events ++
          (classifyBatch db device_id user_id B).events_to_insert }
        (sortByLe eventLe
          (classifyBatch db device_id user_id B).events_to_insert)
        user_id := congrArg Prod.fst hsync
  rw [hclass] at hfst0
  have hfst1 : (sync_events db device_id user_id B).1 =
      update_projections { db with events := db.events ++ E }
        (sortByLe eventLe E) user_id := hfst0
  have hfst : (sync_events db device_id user_id B).1 =
      update_projections { db with events := L ++ E } E user_id := by
    rw [hfst1, he, hsortE]
  have hwf0 : (((L ++ (E ++ F)).foldlM wfStep
      (([], []) : List Nat × List Nat))).isSome = true := hwf
  obtain ⟨stL, hstL, hwf1⟩ := foldlM_wfStep_isSome_front L (E ++ F) ([], []) hwf0
  obtain ⟨stLE, hstE, _⟩ := foldlM_wfStep_isSome_front E F stL hwf1
  have hWInvL : WInv (replayWorkouts L) stL.1 stL.2 user_id :=
    replay_WInv user_id L stL hus hstL
  obtain ⟨hWeq, hWinvLE0⟩ := foldW_eq_inv user_id E (replayWorkouts L) stL stLE
    hWInvL hEusers hstE
  have hfold_eq : E.foldl replayWorkoutStep (replayWorkouts L) =
      replayWorkouts (L ++ E) := by
    unfold replayWorkouts
    rw [List.foldl_append]
  have hWinvLE : WInv (replayWorkouts (L ++ E)) stLE.1 stLE.2 user_id := by
    rw [← hfold_eq]
    exact hWinvLE0
  refine ⟨?_, ?_, ?_⟩
  · rw [hfst]
    rfl
  · rw [hfst]
    show (E.filter isWorkoutEvent).foldl applyWorkoutEvent db.workouts =
      replayWorkouts (L ++ E)
    rw [foldl_filter_eq_of_id isWorkoutEvent applyWorkoutEvent
      applyWorkoutEvent_not_workout E db.workouts, hw, hWeq, hfold_eq]
  · rw [hfst]
    show (E.filter isSetEvent).foldl
        (applySetEvent ((E.filter isWorkoutEvent).foldl applyWorkoutEvent
          db.workouts)) db.sets =
      replaySets (replayWorkouts (L ++ E)) (L ++ E)
    rw [foldl_filter_eq_of_id isWorkoutEvent applyWorkoutEvent
      applyWorkoutEvent_not_workout E db.workouts, hw, hWeq, hfold_eq]
    rw [foldl_filter_eq_of_id isSetEvent
      (applySetEvent (replayWorkouts (L ++ E)))
      (applySetEvent_not_set (replayWorkouts (L ++ E))) E db.sets]
    rw [applySetEvent_eq_fun (replayWorkouts (L ++ E))]
    rw [hs]
    have hbridge : L.foldl (replaySetStep (replayWorkouts L)) [] =
        L.foldl (replaySetStep (replayWorkouts (L ++ E))) [] := by
      apply foldl_replaySetStep_congr
      intro e he' wid eid sid r wt t hp
      have hwid : wid ∈ stL.1 :=
        wf_set_started L ([], []) stL hstL e he' wid eid sid r wt t hp
      refine ⟨?_, ?_⟩
      · exact (any_widMatch_iff _ _).mpr ((hWInvL.1 wid).mpr hwid)
      · exact (any_widMatch_iff _ _).mpr ((hWinvLE.1 wid).mpr
          ((foldlM_wfStep_mono E stL stLE hstE).1 hwid))
    show (E.foldl (replaySetStep (replayWorkouts (L ++ E)))
        (L.foldl (replaySetStep (replayWorkouts L)) [])) =
      replaySets (replayWorkouts (L ++ E)) (L ++ E)
    rw [hbridge]
    unfold replaySets
    rw [List.foldl_append]

/-- The whole-run invariant: folding accepted sync calls over corresponding
fresh, increasing, well-formed batches keeps the events table equal to the
joined log and both projection tables equal to the rebuilder's replay of
that log. -/
theorem syncAll_inv (device_id user_id : Nat) :
    ∀ (Bs : List (List InEvent)) (Es : List (List Event)) (db : DB)
      (L : List Event),
      List.Forall₂ (List.Forall₂ (validatesTo device_id user_id)) Bs Es →
      db.events = L →
      db.workouts = replayWorkouts L →
      db.sets = replaySets (replayWorkouts L) L →
      (∀ e ∈ L, e.user_id = user_id) →
      ((L ++ Es.flatten).map (fun e => e.event_id)).Nodup →
      ((L ++ Es.flatten).map (fun e => e.sequence_number)).Pairwise (· < ·) →
      (wfScan (L ++ Es.flatten)).isSome = true →
      (syncAll device_id user_id db Bs).events = L ++ Es.flatten ∧
      (syncAll device_id user_id db Bs).workouts =
        replayWorkouts (L ++ Es.flatten) ∧
      (syncAll device_id user_id db Bs).sets =
        replaySets (replayWorkouts (L ++ Es.flatten)) (L ++ Es.flatten) := by
  intro Bs
  induction Bs with
  | nil =>
    intro Es db L hF he hw hs hus _ _ _
    cases hF
    have h1 : syncAll device_id user_id db [] = db := rfl
    rw [h1]
    simp only [List.flatten_nil, List.append_nil]
    exact ⟨he, hw, hs⟩
  | cons B Bs' ih =>
    intro Es db L hF he hw hs hus hnodup hpair hwf
    cases hF with
    | cons hBE hrest =>
      rename_i E Es'
      rw [List.flatten_cons] at hnodup hpair hwf
      cases E with
      | nil =>
        cases hBE
        have hempty : (sync_events db device_id user_id []).1 = db := by
          rw [sync_events_no_insert db device_id user_id [] (by decide) rfl]
        simp only [List.nil_append] at hnodup hpair hwf
        have hstep_eq : syncAll device_id user_id db ([] :: Bs') =
            syncAll device_id user_id
              ((sync_events db device_id user_id []).1) Bs' := rfl
        rw [List.flatten_cons, List.nil_append, hstep_eq, hempty]
        exact ih Es' db L hrest he hw hs hus hnodup hpair hwf
      | cons ev0 Etl =>
        obtain ⟨hdb1e, hdb1w, hdb1s⟩ := sync_step_inv device_id user_id db L
          B (ev0 :: Etl) Es'.flatten hBE rfl he hw hs hus hnodup hpair hwf
        have hEusers : ∀ e ∈ (ev0 :: Etl), e.user_id = user_id := by
          intro e he'
          obtain ⟨b, hb, hvb⟩ := forall2_mem_right hBE e he'
          exact hvb.2.2.1
        have huserLE : ∀ e ∈ L ++ (ev0 :: Etl), e.user_id = user_id := by
          intro e he'
          rcases List.mem_append.mp he' with h | h
          · exact hus e h
          · exact hEusers e h
        have hnodupA : (((L ++ (ev0 :: Etl)) ++ Es'.flatten).map
            (fun e => e.event_id)).Nodup := by
          rw [List.append_assoc]
          exact hnodup
        have hpairA : (((L ++ (ev0 :: Etl)) ++ Es'.flatten).map
            (fun e => e.sequence_number)).Pairwise (· < ·) := by
          rw [List.append_assoc]
          exact hpair
        have hwfA : (wfScan ((L ++ (ev0 :: Etl)) ++ Es'.flatten)).isSome
            = true := by
          rw [List.append_assoc]
          exact hwf
        have hstep_eq : syncAll device_id user_id db (B :: Bs') =
            syncAll device_id user_id
              ((sync_events db device_id user_id B).1) Bs' := rfl
        obtain ⟨hEfin, hWfin, hSfin⟩ := ih Es'
          ((sync_events db device_id user_id B).1) (L ++ (ev0 :: Etl))
          hrest hdb1e hdb1w hdb1s huserLE hnodupA hpairA hwfA
        rw [hstep_eq, List.flatten_cons, ← List.append_assoc]
        exact ⟨hEfin, hWfin, hSfin⟩

/-- C2 counterexample to the claim as stated: an accepted one-event sync
batch holding a WorkoutEnded with no matching WorkoutStarted anywhere makes
the incremental updater synthesize a completed workout-projection row, while
an immediate full rebuild replays the same log, skips the orphan, and
deletes that row — the rebuild changes a workout-projection row's value. -/
theorem c2_counterexample :
    (sync_events emptyDB 5 7 orphanEndBatch).2.accepted_count = 1 ∧
    (sync_events emptyDB 5 7 orphanEndBatch).2.rejected_count = 0 ∧
    (sync_events emptyDB 5 7 orphanEndBatch).1.workouts =
      [⟨8, 7, dtC, some dtC, "completed"⟩] ∧
    (rebuild_projections
      (sync_events emptyDB 5 7 orphanEndBatch).1).workouts = [] := by
  decide

/-- C2 (amended): sync→rebuild equivalence on well-formed logs. Starting
from a database with no stored events and empty projection tables, run any
sequence of sync calls (one device, one user) whose batches validate
event-by-event to stored rows `Es`, with globally distinct event_ids,
globally strictly increasing sequence_numbers, and a well-formed log: every
WorkoutEnded and every SetCompleted is preceded by the WorkoutStarted of its
workout_id, and no workout is restarted after ending (`wfScan` succeeds).
All these sync calls are accepted, and an immediate full rebuild leaves the
workout-projection table and the set-projection table exactly as the
incremental updater left them. Without the well-formedness restriction the
property fails (`c2_counterexample`): an orphan WorkoutEnded is kept by the
updater but dropped by the rebuild. -/
theorem c2_sync_rebuild_equiv (device_id user_id : Nat)
    (Bs : List (List InEvent)) (Es : List (List Event)) (db0 : DB)
    (h0e : db0.events = []) (h0w : db0.workouts = []) (h0s : db0.sets = [])
    (hcorr : List.Forall₂ (List.Forall₂ (validatesTo device_id user_id)) Bs Es)
    (hids : (Es.flatten.map (fun e => e.event_id)).Nodup)
    (hseqs : (Es.flatten.map (fun e => e.sequence_number)).Pairwise (· < ·))
    (hwf : (wfScan Es.flatten).isSome = true) :
    (rebuild_projections (syncAll device_id user_id db0 Bs)).workouts =
      (syncAll device_id user_id db0 Bs).workouts ∧
    (rebuild_projections (syncAll device_id user_id db0 Bs)).sets =
      (syncAll device_id user_id db0 Bs).sets := by
  have h0w' : db0.workouts = replayWorkouts [] := by
    rw [h0w]
    rfl
  have h0s' : db0.sets = replaySets (replayWorkouts []) [] := by
    rw [h0s]
    rfl
  have hu0 : ∀ e ∈ ([] : List Event), e.user_id = user_id := by
    intro e he
    simp at he
  have hids' : ((([] : List Event) ++ Es.flatten).map
      (fun e => e.event_id)).Nodup := hids
  have hseqs' : ((([] : List Event) ++ Es.flatten).map
      (fun e => e.sequence_number)).Pairwise (· < ·) := hseqs
  have hwf' : (wfScan ([] ++ Es.flatten)).isSome = true := hwf
  obtain ⟨hE, hW, hS⟩ := syncAll_inv device_id user_id Bs Es db0 [] hcorr
    h0e h0w' h0s' hu0 hids' hseqs' hwf'
  rw [List.nil_append] at hE hW hS
  have hJdev : ∀ e ∈ Es.flatten, e.device_id = device_id := by
    intro e hef
    obtain ⟨E, hEmem, heE⟩ := List.mem_flatten.mp hef
    obtain ⟨B, hBmem, hBE⟩ := forall2_mem_right hcorr E hEmem
    obtain ⟨b, hb, hval⟩ := forall2_mem_right hBE e heE
    exact hval.2.2.2.1
  have hJsorted : Es.flatten.Pairwise (fun a b => eventLe a b = true) := by
    refine List.Pairwise.imp_of_mem ?_ (List.pairwise_map.mp hseqs)
    intro a b ha hb hab
    have hda : a.device_id = device_id := hJdev a ha
    have hdb2 : b.device_id = device_id := hJdev b hb
    unfold eventLe
    rw [hda, hdb2]
    simp only [Bool.or_eq_true, Bool.and_eq_true, decide_eq_true_eq,
      beq_iff_eq]
    exact Or.inr ⟨by trivial, le_of_lt hab⟩
  have hsortJ : sortByLe eventLe Es.flatten = Es.flatten :=
    sortByLe_of_sorted eventLe Es.flatten hJsorted
  constructor
  · rw [rebuild_projections_workouts, hE, hsortJ, hW]
  · rw [rebuild_projections_sets, hE, hsortJ, hS]

/-- Witness for C2 at a concrete run: device 5, user 7 sync the single
well-formed batch `happyBatch` (start, set, end of workout 7) into the empty
database; the side conditions hold and the rebuild leaves both projection
tables unchanged. -/
theorem c2_sync_rebuild_equiv_witness :
    ((c2Es.flatten.map (fun e => e.event_id)).Nodup ∧
      (c2Es.flatten.map (fun e => e.sequence_number)).Pairwise (· < ·) ∧
      (wfScan c2Es.flatten).isSome = true) ∧
    ((rebuild_projections (syncAll 5 7 emptyDB c2Bs)).workouts =
        (syncAll 5 7 emptyDB c2Bs).workouts ∧
      (rebuild_projections (syncAll 5 7 emptyDB c2Bs)).sets =
        (syncAll 5 7 emptyDB c2Bs).sets) :=
  ⟨⟨by decide, by decide, by decide⟩,
   c2_sync_rebuild_equiv 5 7 c2Bs c2Es emptyDB rfl rfl rfl
     (List.Forall₂.cons
       (List.Forall₂.cons ⟨rfl, rfl, rfl, rfl, rfl⟩
         (List.Forall₂.cons ⟨rfl, rfl, rfl, rfl, rfl⟩
           (List.Forall₂.cons ⟨rfl, rfl, rfl, rfl, rfl⟩ List.Forall₂.nil)))
       List.Forall₂.nil)
     (by decide) (by decide) (by decide)⟩

end Hypertrophy
